import Mathlib

/-!
Shallow embedding of the auto-labeling rule engine and bulk batch-processing
subsystem of the mcp-gmail server (src/index.js), together with theorems
checking the natural-language specification against it.

Conventions: JavaScript `null`/absent string fields are `Option String` with
`none` for null; argument fields that distinguish `undefined` from `null`
use a nested `Option`.  JS falsiness of a string field ("" and null are
falsy) is `strTruthy`.  Arrays are `List`s, `Array.join` is `jsJoin`.
-/

/-- JavaScript truthiness of an optional string (null/undefined and "" are falsy). -/
def strTruthy : Option String → Bool
  | none => false
  | some s => !(s == "")

/-- JavaScript `x || null` for an optional string field. -/
def jsOrNull (o : Option String) : Option String :=
  if strTruthy o then o else none

/-- JavaScript `x || d` for an optional string with a string default. -/
def jsOrD (o : Option String) (d : String) : String :=
  if strTruthy o then o.getD "" else d

/-- JavaScript `Array.prototype.join(sep)`. -/
def jsJoin (sep : String) : List String → String
  | [] => ""
  | [x] => x
  | x :: y :: xs => x ++ sep ++ jsJoin sep (y :: xs)

/-- A stored auto-labeling rule (shape written by toolAddAutoLabelingRule,
src/index.js lines 3720-3729; `updated` is added by toolUpdateAutoLabelingRule). -/
structure Rule where
  label_name : String
  sender_pattern : Option String := none
  subject_pattern : Option String := none
  subject_contains : Option (List String) := none
  query : Option String := none
  enabled : Option Bool := none
  created : Option String := none
  last_run : Option String := none
  updated : Option String := none
  deriving Repr, DecidableEq

/-- Default rule value used when reading out of range (never observed on valid runs). -/
def defaultRule : Rule := { label_name := "" }

/-- The JS check `subject_contains && Array.isArray(subject_contains) && subject_contains.length > 0`. -/
def listNonempty : Option (List String) → Bool
  | none => false
  | some l => decide (0 < l.length)

/-- `from:<pattern>` sender clause. -/
def fromClause (p : String) : String := "from:" ++ p

/-- `subject:"<pattern>"` quoted subject clause. -/
def subjectClause (p : String) : String := "subject:\"" ++ p ++ "\""

/-- Parenthesized OR-group of quoted subject clauses. -/
def orGroup (l : List String) : String :=
  "(" ++ jsJoin " OR " (l.map subjectClause) ++ ")"

/-- The `conditions` array built from pattern fields
(src/index.js lines 3702-3712, also lines 3802-3812). -/
def synthConds (r : Rule) : List String :=
  (if strTruthy r.sender_pattern then [fromClause (r.sender_pattern.getD "")] else []) ++
  (if strTruthy r.subject_pattern then [subjectClause (r.subject_pattern.getD "")] else []) ++
  (if listNonempty r.subject_contains then [orGroup (r.subject_contains.getD [])] else [])

/-- Effective query as synthesized by toolAddAutoLabelingRule (src/index.js 3698-3714). -/
def synthQueryAdd (r : Rule) : String :=
  if strTruthy r.query then r.query.getD ""
  else jsJoin " " (synthConds r)

/-- Effective query as synthesized by toolAutoLabelEmails (src/index.js 3350-3363):
only sender_pattern and subject_pattern are consulted. -/
def synthQueryAuto (r : Rule) : String :=
  if strTruthy r.query then r.query.getD ""
  else
    jsJoin " "
      ((if strTruthy r.sender_pattern then [fromClause (r.sender_pattern.getD "")] else []) ++
       (if strTruthy r.subject_pattern then [subjectClause (r.subject_pattern.getD "")] else []))

/-- Effective query as synthesized by toolRunAutoLabelingRules (src/index.js 3875-3880):
only the stored query and subject_contains are consulted. -/
def synthQueryRun (r : Rule) : String :=
  if strTruthy r.query then r.query.getD ""
  else if listNonempty r.subject_contains then orGroup (r.subject_contains.getD [])
  else ""

/-- Query synthesis as the specification describes it (spec section 4.2): the
verbatim query if set, else whichever of the sender clause, quoted subject
clause and parenthesized OR-group of quoted subject-contains clauses are
present, joined by single spaces. -/
def specSynthQuery (r : Rule) : String :=
  if strTruthy r.query then r.query.getD ""
  else
    jsJoin " "
      ((if strTruthy r.sender_pattern then [fromClause (r.sender_pattern.getD "")] else []) ++
       (if strTruthy r.subject_pattern then [subjectClause (r.subject_pattern.getD "")] else []) ++
       (if listNonempty r.subject_contains then [orGroup (r.subject_contains.getD [])] else []))

/-- Error taxonomy of the tool surface. -/
inductive McpErr where
  | invalidParams (msg : String)
  | invalidRequest (msg : String)
  | internalError (msg : String)
  deriving Repr, DecidableEq

/-- Arguments of add_auto_labeling_rule (src/index.js 3692). -/
structure AddArgs where
  label_name : Option String := none
  sender_pattern : Option String := none
  subject_pattern : Option String := none
  subject_contains : Option (List String) := none
  query : Option String := none
  enabled : Bool := true
  deriving Repr, DecidableEq

/-- toolAddAutoLabelingRule (src/index.js 3691-3745): validates label_name,
synthesizes the query, rejects an empty synthesis with InvalidParams, else
appends the new rule and saves the store.  Returns the (possibly updated)
store together with the outcome. -/
def toolAddAutoLabelingRule (args : AddArgs) (now : String) (store : List Rule) :
    List Rule × Except McpErr (Nat × Rule) :=
  if !(strTruthy args.label_name) then
    (store, .error (.invalidParams "label_name is required"))
  else
    let searchQuery := synthQueryAdd
      { label_name := args.label_name.getD "", sender_pattern := args.sender_pattern,
        subject_pattern := args.subject_pattern, subject_contains := args.subject_contains,
        query := args.query }
    if searchQuery == "" then
      (store, .error (.invalidParams
        "No search criteria provided (need sender_pattern, subject_pattern, subject_contains, or query)"))
    else
      let newRule : Rule :=
        { label_name := args.label_name.getD "",
          sender_pattern := jsOrNull args.sender_pattern,
          subject_pattern := jsOrNull args.subject_pattern,
          subject_contains := args.subject_contains,
          query := some searchQuery,
          enabled := some args.enabled,
          created := some now,
          last_run := none }
      (store ++ [newRule], .ok (store.length, newRule))

/-- Arguments of update_auto_labeling_rule (src/index.js 3776); the outer
Option distinguishes `undefined` (field not passed) from a passed value,
whose inner Option distinguishes `null`. -/
structure UpdateArgs where
  rule_index : Option Int := none
  label_name : Option String := none
  sender_pattern : Option (Option String) := none
  subject_pattern : Option (Option String) := none
  subject_contains : Option (Option (List String)) := none
  query : Option (Option String) := none
  enabled : Option Bool := none
  deriving Repr, DecidableEq

/-- Truthiness of the `query` argument of update (undefined and null and "" are falsy). -/
def updQueryTruthy (q : Option (Option String)) : Bool :=
  match q with
  | some (some s) => !(s == "")
  | _ => false

/-- toolUpdateAutoLabelingRule (src/index.js 3775-3831): bounds-checks the
index, overwrites whichever fields were passed, and when a pattern field was
passed and the (post-update) stored query is truthy while no truthy query
argument was given, rebuilds the stored query from the current pattern
fields — with no search-criteria validation. -/
def toolUpdateAutoLabelingRule (args : UpdateArgs) (now : String) (store : List Rule) :
    List Rule × Except McpErr (Nat × Rule) :=
  match args.rule_index with
  | none => (store, .error (.invalidParams "rule_index must be a non-negative number"))
  | some idx =>
    if idx < 0 then (store, .error (.invalidParams "rule_index must be a non-negative number"))
    else
      let i := idx.toNat
      if h : i < store.length then
        let rule0 := store.get ⟨i, h⟩
        let r1 : Rule :=
          { rule0 with
            label_name := args.label_name.getD rule0.label_name,
            sender_pattern := args.sender_pattern.getD rule0.sender_pattern,
            subject_pattern := args.subject_pattern.getD rule0.subject_pattern,
            subject_contains := args.subject_contains.getD rule0.subject_contains,
            query := args.query.getD rule0.query,
            enabled := match args.enabled with | some b => some b | none => rule0.enabled }
        let r2 : Rule :=
          if args.sender_pattern.isSome || args.subject_pattern.isSome ||
             args.subject_contains.isSome then
            if strTruthy r1.query && !(updQueryTruthy args.query) then
              { r1 with query := some (jsJoin " " (synthConds r1)) }
            else r1
          else r1
        let r3 : Rule := { r2 with updated := some now }
        (store.set i r3, .ok (i, r3))
      else
        (store, .error (.invalidRequest
          ("Rule index " ++ toString i ++ " is out of range. Available rules: 0-" ++
           toString ((store.length : Int) - 1))))

/-- toolRemoveAutoLabelingRule (src/index.js 3747-3773): validates the index
argument, splices the rule out of the list and saves, or raises
InvalidRequest when the index is out of range (store unchanged). -/
def toolRemoveAutoLabelingRule (rule_index : Option Int) (store : List Rule) :
    List Rule × Except McpErr Rule :=
  match rule_index with
  | none => (store, .error (.invalidParams "rule_index must be a non-negative number"))
  | some idx =>
    if idx < 0 then (store, .error (.invalidParams "rule_index must be a non-negative number"))
    else
      let i := idx.toNat
      if h : i < store.length then
        (store.take i ++ store.drop (i + 1), .ok (store.get ⟨i, h⟩))
      else
        (store, .error (.invalidRequest
          ("Rule index " ++ toString i ++ " is out of range. Available rules: 0-" ++
           toString ((store.length : Int) - 1))))

/-- One formatted entry of list_auto_labeling_rules (src/index.js 3670-3679). -/
structure ListedRule where
  index : Nat
  label_name : String
  sender_pattern : Option String
  subject_pattern : Option String
  query : Option String
  enabled : Bool
  created : String
  last_run : String
  deriving Repr, DecidableEq

/-- Formatting of one rule at one index in list_auto_labeling_rules. -/
def listEntry (i : Nat) (r : Rule) : ListedRule :=
  { index := i, label_name := r.label_name,
    sender_pattern := jsOrNull r.sender_pattern,
    subject_pattern := jsOrNull r.subject_pattern,
    query := jsOrNull r.query,
    enabled := decide (r.enabled ≠ some false),
    created := jsOrD r.created "Unknown",
    last_run := jsOrD r.last_run "Never" }

/-- toolListAutoLabelingRules (src/index.js 3667-3689). -/
def toolListAutoLabelingRules (store : List Rule) : List ListedRule :=
  store.enum.map (fun p => listEntry p.1 p.2)

/-! ### Bulk batch-processing -/

/-- One page of message ids as returned by a paginated `messages.list` call,
together with the modeled outcome of the page-level batch call issued on it
(`callOk`: the try block around batchDelete/batchModify does not throw). -/
structure BatchPage where
  msgs : List String
  hasNext : Bool
  callOk : Bool
  errMsg : String := "error"
  deriving Repr, DecidableEq

/-- The counters of a bulk run: processedCount, deletedCount/labeledCount,
errorCount and the per-batch errors array of entries (batch, error, count). -/
structure BulkState where
  processed : Nat
  success : Nat
  failed : Nat
  errors : List (Nat × String × Nat)
  deriving Repr, DecidableEq

/-- Counters before the first page. -/
def initBulkState : BulkState := ⟨0, 0, 0, []⟩

/-- Total number of message ids in a page sequence. -/
def totalMsgs (pages : List BatchPage) : Nat :=
  (pages.map (fun p => p.msgs.length)).sum

/-- The pagination loop of toolBulkDeleteEmails (src/index.js 2017-2067): runs
while processedCount < totalCount (the probe estimate), breaks on an empty
page, counts the whole page as successful or as failed with one error entry
(batch index, message, item count) according to the page-level batch call,
advances processedCount, and breaks when no next-page token was returned. -/
def bulkLoop (totalCount batchSize : Nat) : List BatchPage → BulkState → BulkState
  | [], st => st
  | p :: rest, st =>
    if st.processed < totalCount then
      if p.msgs.length = 0 then st
      else
        let st' :=
          if p.callOk then
            { st with success := st.success + p.msgs.length,
                      processed := st.processed + p.msgs.length }
          else
            { st with failed := st.failed + p.msgs.length,
                      errors := st.errors ++
                        [(st.processed / batchSize + 1, p.errMsg, p.msgs.length)],
                      processed := st.processed + p.msgs.length }
        if p.hasNext then bulkLoop totalCount batchSize rest st' else st'
    else st

/-- The mailbox as seen by a bulk tool: the probe call's resultSizeEstimate
and the successive pages returned by the paginated list calls (an exhausted
sequence yields an empty page). -/
structure BulkMailbox where
  estimate : Nat
  pages : List BatchPage
  deriving Repr, DecidableEq

/-- Result payload of a bulk tool run. -/
inductive BulkResult where
  | noEmails
  | dryRun (total_estimated batch_size estimated_batches : Nat)
  | completed (st : BulkState) (batch_size batches_processed : Nat)
  deriving Repr, DecidableEq

/-- Math.ceil (a / b) on naturals. -/
def ceilDiv (a b : Nat) : Nat := (a + b - 1) / b

/-- JS `Number(x || d)` for an optional numeric argument: undefined and 0 give d. -/
def jsNumOr (o : Option Nat) (d : Nat) : Nat :=
  match o with
  | none => d
  | some n => if n = 0 then d else n

/-- toolBulkDeleteEmails (src/index.js 1978-2084): validates the query, clamps
the batch size to 10..500, probes for resultSizeEstimate, short-circuits on a
zero estimate or on dry_run, else runs the pagination loop and reports the
aggregated counters. -/
def toolBulkDeleteEmails (query : Option String) (batch_size : Option Nat)
    (dry_run : Bool) (mb : BulkMailbox) : Except McpErr BulkResult :=
  if !(strTruthy query) then .error (.invalidParams "query is required")
  else
    let batchSize := max 10 (min 500 (jsNumOr batch_size 100))
    if mb.estimate = 0 then .ok .noEmails
    else if dry_run then .ok (.dryRun mb.estimate batchSize (ceilDiv mb.estimate batchSize))
    else
      let st := bulkLoop mb.estimate batchSize mb.pages initBulkState
      .ok (.completed st batchSize (ceilDiv st.processed batchSize))

/-- The three label operations of bulk_label_emails. -/
inductive LabelOp where
  | add
  | remove
  | replace
  deriving Repr, DecidableEq

/-- The batchModify request body computed for one page. -/
structure ModifyCall where
  ids : List String
  removeLabelIds : List String
  addLabelIds : List String
  deriving Repr, DecidableEq

/-- JS `[...new Set(l)]`: first-occurrence deduplication. -/
def jsDedup (seen : List String) : List String → List String
  | [] => []
  | x :: xs => if seen.contains x then jsDedup seen xs else x :: jsDedup (x :: seen) xs

/-- The fixed system label set of the replace operation (src/index.js 3292). -/
def systemLabels : List String :=
  ["INBOX", "SENT", "DRAFT", "SPAM", "TRASH", "IMPORTANT", "STARRED", "UNREAD"]

/-- removeLabelIds of the replace operation for one page (src/index.js
3290-3301): flatten the fetched per-message label lists, keep only non-system
labels, deduplicate. -/
def replaceRemoveIds (currentLabels : List (List String)) : List String :=
  jsDedup [] (currentLabels.flatten.filter (fun l => !systemLabels.contains l))

/-- The modify request built for one page of toolBulkLabelEmails
(src/index.js 3280-3302); `msgLabels` models `messages.get(...).labelIds`. -/
def pageModifyCall (msgLabels : String → List String) (operation : LabelOp)
    (label_ids : List String) (messageIds : List String) : ModifyCall :=
  match operation with
  | .add => { ids := messageIds, removeLabelIds := [], addLabelIds := label_ids }
  | .remove => { ids := messageIds, removeLabelIds := label_ids, addLabelIds := [] }
  | .replace =>
      { ids := messageIds,
        removeLabelIds := replaceRemoveIds (messageIds.map msgLabels),
        addLabelIds := label_ids }

/-- The pagination loop of toolBulkLabelEmails (src/index.js 3262-3318): as
`bulkLoop`, additionally recording the batchModify request computed for each
nonempty page. -/
def labelLoop (msgLabels : String → List String) (operation : LabelOp)
    (label_ids : List String) (totalCount batchSize : Nat) :
    List BatchPage → BulkState × List ModifyCall → BulkState × List ModifyCall
  | [], acc => acc
  | p :: rest, (st, log) =>
    if st.processed < totalCount then
      if p.msgs.length = 0 then (st, log)
      else
        let call := pageModifyCall msgLabels operation label_ids p.msgs
        let st' :=
          if p.callOk then
            { st with success := st.success + p.msgs.length,
                      processed := st.processed + p.msgs.length }
          else
            { st with failed := st.failed + p.msgs.length,
                      errors := st.errors ++
                        [(st.processed / batchSize + 1, p.errMsg, p.msgs.length)],
                      processed := st.processed + p.msgs.length }
        if p.hasNext then
          labelLoop msgLabels operation label_ids totalCount batchSize rest (st', log ++ [call])
        else (st', log ++ [call])
    else (st, log)

/-- The mailbox as seen by toolBulkLabelEmails: estimate, pages, and the
per-message current label sets fetched by the replace operation. -/
structure LabelMailbox where
  estimate : Nat
  pages : List BatchPage
  msgLabels : String → List String

/-- toolBulkLabelEmails (src/index.js 3218-3336): validates query and
label_ids, clamps the batch size, probes, short-circuits on a zero estimate
or dry_run, else runs the pagination loop; also returns the computed
batchModify requests. -/
def toolBulkLabelEmails (query : Option String) (label_ids : List String)
    (operation : LabelOp) (batch_size : Option Nat) (dry_run : Bool)
    (mb : LabelMailbox) : Except McpErr (BulkResult × List ModifyCall) :=
  if !(strTruthy query) then .error (.invalidParams "query is required")
  else if label_ids.length = 0 then .error (.invalidParams "label_ids array is required")
  else
    let batchSize := max 10 (min 500 (batch_size.getD 100))
    if mb.estimate = 0 then .ok (.noEmails, [])
    else if dry_run then
      .ok (.dryRun mb.estimate batchSize (ceilDiv mb.estimate batchSize), [])
    else
      let r := labelLoop mb.msgLabels operation label_ids mb.estimate batchSize mb.pages
        (initBulkState, [])
      .ok (.completed r.1 batchSize (ceilDiv r.1.processed batchSize), r.2)

/-- The mailbox as seen by toolDeleteEmailsByQuery: ids returned by the single
list call, whether the page-level batch call succeeds, and which individual
per-message calls succeed in the fallback. -/
structure DelBehavior where
  msgs : List String
  batchOk : Bool
  itemOk : String → Bool

/-- Result payload of toolDeleteEmailsByQuery. -/
inductive DelOutcome where
  | noEmails
  | dryRunCount (count : Nat)
  | deleted (successful failed : Nat) (ids : List String)
  deriving Repr, DecidableEq

/-- toolDeleteEmailsByQuery (src/index.js 1854-1976): one list call, then one
batch call (batchDelete when permanent, batchModify-to-TRASH otherwise) over
all ids; when the batch call throws, a per-item fallback issues the action per
individual message id, collecting per-item successes and errors.  successful
is the number of deleted ids, failed the number of per-item errors. -/
def toolDeleteEmailsByQuery (query : Option String) (permanent dry_run : Bool)
    (beh : DelBehavior) : Except McpErr DelOutcome :=
  if !(strTruthy query) then .error (.invalidParams "query is required")
  else if beh.msgs.length = 0 then .ok .noEmails
  else if dry_run then .ok (.dryRunCount beh.msgs.length)
  else
    let deletedIds := if beh.batchOk then beh.msgs else beh.msgs.filter beh.itemOk
    let errorCount := if beh.batchOk then 0
      else (beh.msgs.filter (fun i => !(beh.itemOk i))).length
    .ok (.deleted deletedIds.length errorCount deletedIds)

/-- Pages of a well-behaved mailbox: every page nonempty, a next-page token
exactly when another page follows. -/
def wfPages : List BatchPage → Bool
  | [] => true
  | p :: rest => decide (0 < p.msgs.length) && (p.hasNext == !rest.isEmpty) && wfPages rest

/-- Chunk-accounting invariant of a completed bulk result: successful + failed
equals total_processed, and failed is the sum of the recorded per-batch error
item counts. -/
def bulkInvariant : BulkResult → Prop
  | .completed st _ _ =>
      st.success + st.failed = st.processed ∧
      st.failed = (st.errors.map (fun e => e.2.2)).sum
  | _ => True

/-- `bulkInvariant` of a delete-tool outcome. -/
def delToolInvariant : Except McpErr BulkResult → Prop
  | .ok r => bulkInvariant r
  | .error _ => True

/-- `bulkInvariant` of a label-tool outcome. -/
def labelToolInvariant : Except McpErr (BulkResult × List ModifyCall) → Prop
  | .ok (r, _) => bulkInvariant r
  | .error _ => True

/-- processedCount of a completed delete-tool outcome. -/
def delProcessedOf : Except McpErr BulkResult → Nat
  | .ok (.completed st _ _) => st.processed
  | _ => 0

/-- processedCount of a completed label-tool outcome. -/
def labelProcessedOf : Except McpErr (BulkResult × List ModifyCall) → Nat
  | .ok (.completed st _ _, _) => st.processed
  | _ => 0

/-- successful count of a completed label-tool outcome. -/
def labelSuccessOf : Except McpErr (BulkResult × List ModifyCall) → Nat
  | .ok (.completed st _ _, _) => st.success
  | _ => 0

/-- failed count of a completed label-tool outcome. -/
def labelFailedOf : Except McpErr (BulkResult × List ModifyCall) → Nat
  | .ok (.completed st _ _, _) => st.failed
  | _ => 0

/-! ### The rule runner (toolRunAutoLabelingRules) and toolAutoLabelEmails -/

/-- A Gmail label: id and display name. -/
structure GLabel where
  id : String
  name : String
  deriving Repr, DecidableEq

/-- One page of search results returned by a `messages.list` call of the runner. -/
structure SearchPage where
  msgs : List String
  hasNext : Bool
  deriving Repr, DecidableEq

/-- Fixed environment behavior during one run: the successive pages each query
returns (consumed in order; an exhausted sequence yields an empty page),
whether a `labels.create` call for a name succeeds, whether a `batchModify`
call on a set of ids succeeds, and whether a `messages.list` call for a query
succeeds at all. -/
structure RunBehavior where
  search : String → List SearchPage
  createOk : String → Bool
  modifyOk : List String → String → Bool
  searchOk : String → Bool

/-- Mutable state touched by the runner: the mailbox label list, a counter for
fresh created-label ids, the in-memory rules array, the persisted rule store,
and the log of successfully issued batchModify mutations (ids, labelId). -/
structure RunState where
  labels : List GLabel
  nextId : Nat
  rules : List Rule
  store : List Rule
  modifyLog : List (List String × String)
  deriving Repr, DecidableEq

/-- Exact-name label lookup over the full label list (src/index.js 3859). -/
def findLabel (labels : List GLabel) (name : String) : Option GLabel :=
  labels.find? (fun l => l.name == name)

/-- The per-rule pagination loop of the runner (src/index.js 3899-3928): runs
while batchCount < max_batches, breaks on an empty page, accumulates found
count and all message ids, increments batchCount only when a next-page token
was present.  Returns (totalEmailsFound, allMessageIds, batchCount). -/
def runPaging (max_batches : Nat) : List SearchPage → Nat → Nat → List String →
    Nat × List String × Nat
  | [], batchCount, found, ids => (found, ids, batchCount)
  | p :: rest, batchCount, found, ids =>
    if batchCount < max_batches then
      if p.msgs.length = 0 then (found, ids, batchCount)
      else
        if p.hasNext then
          runPaging max_batches rest (batchCount + 1) (found + p.msgs.length) (ids ++ p.msgs)
        else (found + p.msgs.length, ids ++ p.msgs, batchCount)
    else (found, ids, batchCount)

/-- Splitting a message id list into chunks of at most n (the slice loop of
src/index.js 3952-3953). -/
def chunksOf (n : Nat) (l : List String) : List (List String) :=
  if l.length = 0 then []
  else if n = 0 then [l]
  else l.take n :: chunksOf n (l.drop n)
termination_by l.length
decreasing_by
  simp only [List.length_drop]
  omega

/-- The label-apply loop of the runner (src/index.js 3950-3962): batchModify
per chunk, counting labeled messages and logging successful mutations; a
failing chunk throws out of the loop. -/
def applyChunks (beh : RunBehavior) (labelId : String) :
    List (List String) → Nat × List (List String × String) →
    (Nat × List (List String × String)) × Option String
  | [], acc => (acc, none)
  | c :: cs, (n, log) =>
    if beh.modifyOk c labelId then
      applyChunks beh labelId cs (n + c.length, log ++ [(c, labelId)])
    else ((n, log), some "Failed to modify messages")

/-- Per-rule outcome recorded in the runner's results array. -/
inductive RuleResult where
  | noSearchCriteria (label_id : String)
  | noEmails (label_id : String)
  | dryRun (label_id : String) (emails_found batches_processed : Nat) (query : String)
  | labeled (label_id : String) (emails_found emails_labeled batches_processed : Nat)
      (query : String)
  deriving Repr, DecidableEq

/-- The part of one rule's processing after label resolution (src/index.js
3875-3977): synthesize the query, record no_search_criteria when it is empty,
search page by page, record no_emails_found on zero matches, stop with the
match count on dry_run, else apply the label in chunks of 1000, update the
rule's last_run and save the store.  `p` is the rule with its index in the
stored list. -/
def ruleStepAfterLabel (beh : RunBehavior) (dry_run : Bool) (max_batches : Nat)
    (now : String) (st : RunState) (p : Nat × Rule) (labelId : String) :
    RunState × Except String RuleResult :=
  let searchQuery := synthQueryRun p.2
  if searchQuery == "" then (st, .ok (.noSearchCriteria labelId))
  else if !(beh.searchOk searchQuery) then (st, .error "Search failed")
  else
    let r := runPaging max_batches (beh.search searchQuery) 0 0 []
    if r.1 = 0 then (st, .ok (.noEmails labelId))
    else if dry_run then (st, .ok (.dryRun labelId r.1 (r.2.2 + 1) searchQuery))
    else
      let ar := applyChunks beh labelId (chunksOf 1000 r.2.1) (0, st.modifyLog)
      match ar.2 with
      | some e => ({ st with modifyLog := ar.1.2 }, .error e)
      | none =>
        let rules2 := st.rules.set p.1 { p.2 with last_run := some now }
        ({ st with modifyLog := ar.1.2, rules := rules2, store := rules2 },
         .ok (.labeled labelId r.1 ar.1.1 (r.2.2 + 1) searchQuery))

/-- One rule's processing (src/index.js 3854-3977): resolve the label by exact
name match against the current label list, creating it when absent (a failing
create throws), then continue with `ruleStepAfterLabel`. -/
def ruleStepInner (beh : RunBehavior) (dry_run : Bool) (max_batches : Nat)
    (now : String) (st : RunState) (p : Nat × Rule) :
    RunState × Except String RuleResult :=
  match findLabel st.labels p.2.label_name with
  | some l => ruleStepAfterLabel beh dry_run max_batches now st p l.id
  | none =>
    if beh.createOk p.2.label_name then
      let lid := "Label_" ++ toString st.nextId
      ruleStepAfterLabel beh dry_run max_batches now
        { st with labels := st.labels ++ [⟨lid, p.2.label_name⟩], nextId := st.nextId + 1 }
        p lid
    else (st, .error "Failed to create label")

/-- The enabled rules with their indices (src/index.js 3837: rules with
`enabled !== false`; the index stands for the JS object identity used by the
in-place last_run update). -/
def enabledPairs (rules : List Rule) : List (Nat × Rule) :=
  rules.enum.filter (fun p => !(p.2.enabled == some false))

/-- The per-rule loop of the runner (src/index.js 3854-3984): each rule
appends exactly one entry, to results on normal completion and to errors —
tagged with the rule's label_name — when its processing throws, and the loop
always continues with the remaining rules. -/
def runRulesLoop (beh : RunBehavior) (dry_run : Bool) (max_batches : Nat) (now : String) :
    List (Nat × Rule) → RunState → List (String × RuleResult) → List (String × String) →
    RunState × List (String × RuleResult) × List (String × String)
  | [], st, res, errs => (st, res, errs)
  | p :: rest, st, res, errs =>
    match ruleStepInner beh dry_run max_batches now st p with
    | (st', .ok rr) =>
        runRulesLoop beh dry_run max_batches now rest st' (res ++ [(p.2.label_name, rr)]) errs
    | (st', .error e) =>
        runRulesLoop beh dry_run max_batches now rest st' res (errs ++ [(p.2.label_name, e)])

/-- Output payload of run_auto_labeling_rules. -/
inductive RunOutput where
  | noEnabledRules (total : Nat)
  | ran (results : List (String × RuleResult)) (errors : List (String × String))
  deriving Repr, DecidableEq

/-- toolRunAutoLabelingRules (src/index.js 3833-3998). -/
def toolRunAutoLabelingRules (beh : RunBehavior) (dry_run : Bool) (max_batches : Nat)
    (now : String) (st0 : RunState) : RunState × RunOutput :=
  let pairs := enabledPairs st0.rules
  if pairs.length = 0 then (st0, .noEnabledRules st0.rules.length)
  else
    let r := runRulesLoop beh dry_run max_batches now pairs st0 [] []
    (r.1, .ran r.2.1 r.2.2)

/-- results list of a run output (empty for the no-enabled-rules short circuit). -/
def outResults : RunOutput → List (String × RuleResult)
  | .noEnabledRules _ => []
  | .ran res _ => res

/-- errors list of a run output (empty for the no-enabled-rules short circuit). -/
def outErrors : RunOutput → List (String × String)
  | .noEnabledRules _ => []
  | .ran _ errs => errs

/-- Per-rule outcome recorded by toolAutoLabelEmails. -/
inductive AutoResult where
  | noEmails (label_id : String)
  | dryRun (label_id : String) (emails_found : Nat) (query : String)
  | labeled (label_id : String) (emails_found emails_labeled : Nat) (query : String)
  deriving Repr, DecidableEq

/-- The part of one toolAutoLabelEmails rule after label resolution
(src/index.js 3392-3437): one list call (its returned page modeled as the
query's first page), then no-emails / dry-run / one batchModify. -/
def autoStepAfterLabel (beh : RunBehavior) (dry_run : Bool) (st : RunState)
    (rule : Rule) (labelId : String) : RunState × Except (String × String) (String × AutoResult) :=
  let name := rule.label_name
  let query := synthQueryAuto rule
  if !(beh.searchOk query) then (st, .error (name, "Search failed"))
  else
    let msgs := match beh.search query with
      | [] => []
      | page :: _ => page.msgs
    if msgs.length = 0 then (st, .ok (name, .noEmails labelId))
    else if dry_run then (st, .ok (name, .dryRun labelId msgs.length query))
    else if beh.modifyOk msgs labelId then
      ({ st with modifyLog := st.modifyLog ++ [(msgs, labelId)] },
       .ok (name, .labeled labelId msgs.length msgs.length query))
    else (st, .error (name, "Failed to modify messages"))

/-- One rule of toolAutoLabelEmails (src/index.js 3348-3443): synthesize the
query first and record the no-search-criteria error before any label
resolution; else find or create the label and continue. -/
def autoStep (beh : RunBehavior) (dry_run : Bool) (st : RunState) (rule : Rule) :
    RunState × Except (String × String) (String × AutoResult) :=
  let name := rule.label_name
  if synthQueryAuto rule == "" then
    (st, .error (name, "No search criteria provided (need sender_pattern, subject_pattern, or query)"))
  else
    match findLabel st.labels name with
    | some l => autoStepAfterLabel beh dry_run st rule l.id
    | none =>
      if beh.createOk name then
        let lid := "Label_" ++ toString st.nextId
        autoStepAfterLabel beh dry_run
          { st with labels := st.labels ++ [⟨lid, name⟩], nextId := st.nextId + 1 } rule lid
      else (st, .error (name, "Failed to create label"))

/-- The per-rule loop of toolAutoLabelEmails: one entry per argument rule,
errors never stop the loop. -/
def autoLoop (beh : RunBehavior) (dry_run : Bool) :
    List Rule → RunState → List (String × AutoResult) → List (String × String) →
    RunState × List (String × AutoResult) × List (String × String)
  | [], st, res, errs => (st, res, errs)
  | r :: rest, st, res, errs =>
    match autoStep beh dry_run st r with
    | (st', .ok entry) => autoLoop beh dry_run rest st' (res ++ [entry]) errs
    | (st', .error e) => autoLoop beh dry_run rest st' res (errs ++ [e])

/-- toolAutoLabelEmails (src/index.js 3338-3457): validates the rules array,
then processes each argument rule. -/
def toolAutoLabelEmails (beh : RunBehavior) (dry_run : Bool) (argRules : List Rule)
    (st : RunState) :
    Except McpErr (RunState × List (String × AutoResult) × List (String × String)) :=
  if argRules.length = 0 then .error (.invalidParams "rules array is required")
  else .ok (autoLoop beh dry_run argRules st [] [])

/-- The state-independent outcome of one rule under dry_run after label
resolution: what `ruleStepAfterLabel` reports when it cannot mutate. -/
def dryOut (beh : RunBehavior) (max_batches : Nat) (p : Nat × Rule) (labelId : String) :
    Except String RuleResult :=
  let searchQuery := synthQueryRun p.2
  if searchQuery == "" then .ok (.noSearchCriteria labelId)
  else if !(beh.searchOk searchQuery) then .error "Search failed"
  else
    let r := runPaging max_batches (beh.search searchQuery) 0 0 []
    if r.1 = 0 then .ok (.noEmails labelId)
    else .ok (.dryRun labelId r.1 (r.2.2 + 1) searchQuery)

/-- One run state extends another: same rules, store and mutation log, with
possibly more labels, all of them creatable under the behavior. -/
def ExtendsB (beh : RunBehavior) (s t : RunState) : Prop :=
  t.rules = s.rules ∧ t.store = s.store ∧ t.modifyLog = s.modifyLog ∧
  ∃ ex : List GLabel, t.labels = s.labels ++ ex ∧ ∀ L ∈ ex, beh.createOk L.name = true

/-- results list of a toolAutoLabelEmails outcome. -/
def autoOutRes :
    Except McpErr (RunState × List (String × AutoResult) × List (String × String)) →
    List (String × AutoResult)
  | .ok out => out.2.1
  | .error _ => []

/-- errors list of a toolAutoLabelEmails outcome. -/
def autoOutErrs :
    Except McpErr (RunState × List (String × AutoResult) × List (String × String)) →
    List (String × String)
  | .ok out => out.2.2
  | .error _ => []

/-! ## Helper lemmas -/

@[simp] theorem strTruthy_none : strTruthy none = false := rfl

@[simp] theorem strTruthy_some (s : String) : strTruthy (some s) = !(s == "") := rfl

@[simp] theorem listNonempty_none : listNonempty none = false := rfl

@[simp] theorem jsJoin_nil (sep : String) : jsJoin sep [] = "" := rfl

@[simp] theorem jsJoin_single (sep x : String) : jsJoin sep [x] = x := rfl

theorem toolList_getElem? (l : List Rule) (j : Nat) :
    (toolListAutoLabelingRules l)[j]? = (l[j]?).map (listEntry j) := by
  simp only [toolListAutoLabelingRules, List.getElem?_map, List.getElem?_enum]
  cases l[j]? <;> rfl

/-! ## C2: query synthesis across the three synthesizing paths -/

/-- Concrete rule with both a sender pattern and subject-contains terms. -/
def ruleC2 : Rule :=
  { label_name := "News", sender_pattern := some "news@example.com",
    subject_contains := some ["alpha"] }

/-- C2 counterexample: the claimed synthesis (sender clause, quoted subject
clause, and parenthesized OR-group, space-joined) is what the spec describes,
and toolAddAutoLabelingRule produces it, but toolAutoLabelEmails ignores
subject_contains and toolRunAutoLabelingRules ignores sender_pattern and
subject_pattern, so on a rule with sender_pattern and subject_contains those
two paths synthesize different queries than claimed. -/
theorem synthQuery_paths_cex :
    specSynthQuery ruleC2 = "from:news@example.com (subject:\"alpha\")" ∧
    synthQueryAdd ruleC2 = "from:news@example.com (subject:\"alpha\")" ∧
    synthQueryAuto ruleC2 = "from:news@example.com" ∧
    synthQueryRun ruleC2 = "(subject:\"alpha\")" ∧
    synthQueryAuto ruleC2 ≠ specSynthQuery ruleC2 ∧
    synthQueryRun ruleC2 ≠ specSynthQuery ruleC2 := by
  refine ⟨rfl, rfl, rfl, rfl, ?_, ?_⟩ <;> decide

/-- C2 (amended): the spec's synthesis (verbatim query, else space-joined
sender clause, quoted subject clause and parenthesized OR-group of quoted
subject-contains clauses) is exactly what toolAddAutoLabelingRule computes;
toolAutoLabelEmails computes it with subject_contains discarded, and
toolRunAutoLabelingRules computes it with sender_pattern and subject_pattern
discarded. -/
theorem synthQuery_paths_amended (r : Rule) :
    synthQueryAdd r = specSynthQuery r ∧
    synthQueryAuto r = specSynthQuery { r with subject_contains := none } ∧
    synthQueryRun r = specSynthQuery { r with sender_pattern := none, subject_pattern := none } := by
  refine ⟨rfl, ?_, ?_⟩
  · simp [synthQueryAuto, specSynthQuery]
  · simp only [synthQueryRun, specSynthQuery]
    cases hq : strTruthy r.query
    · simp only [Bool.false_eq_true, if_false, strTruthy_none, List.nil_append]
      cases hc : listNonempty r.subject_contains <;> simp
    · simp

/-! ## C10: update_auto_labeling_rule performs no search-criteria validation -/

/-- Store holding one rule created by add_auto_labeling_rule from a sender pattern. -/
def storeC10 : List Rule :=
  (toolAddAutoLabelingRule { label_name := some "Work", sender_pattern := some "boss@example.com" }
    "T1" []).1

/-- Arguments nulling out all three pattern fields with no query argument. -/
def updArgsC10 : UpdateArgs :=
  { rule_index := some 0, sender_pattern := some none, subject_pattern := some none,
    subject_contains := some none }

/-- C10: update_auto_labeling_rule accepts an update that nulls out
sender_pattern, subject_pattern and subject_contains without supplying a
query, rebuilds the rule's query from the now-empty pattern fields, and
persists the rule with query equal to the empty string. -/
theorem update_rule_persists_empty_query :
    storeC10 = [{ label_name := "Work", sender_pattern := some "boss@example.com",
                  query := some "from:boss@example.com", enabled := some true,
                  created := some "T1" }] ∧
    toolUpdateAutoLabelingRule updArgsC10 "T2" storeC10 =
      ([{ label_name := "Work", query := some "", enabled := some true,
          created := some "T1", updated := some "T2" }],
       .ok (0, { label_name := "Work", query := some "", enabled := some true,
                 created := some "T1", updated := some "T2" })) := by
  exact ⟨rfl, rfl⟩

/-! ## C9: remove_auto_labeling_rule -/

/-- C9: for an in-range index the persisted list has length n-1 and every
subsequent rule is shifted down by one index (both in the raw store and as
observed through list_auto_labeling_rules), while an out-of-range index
raises InvalidRequest and leaves the store unchanged. -/
theorem remove_rule_spec (store : List Rule) (i : Nat) :
    (i < store.length →
       (toolRemoveAutoLabelingRule (some (i : Int)) store).1.length = store.length - 1 ∧
       (∀ j, j < i → (toolRemoveAutoLabelingRule (some (i : Int)) store).1[j]? = store[j]?) ∧
       (∀ j, i ≤ j → (toolRemoveAutoLabelingRule (some (i : Int)) store).1[j]? = store[j + 1]?) ∧
       (∀ j, j < i →
          (toolListAutoLabelingRules (toolRemoveAutoLabelingRule (some (i : Int)) store).1)[j]?
            = (store[j]?).map (listEntry j)) ∧
       (∀ j, i ≤ j →
          (toolListAutoLabelingRules (toolRemoveAutoLabelingRule (some (i : Int)) store).1)[j]?
            = (store[j + 1]?).map (listEntry j))) ∧
    (store.length ≤ i →
       toolRemoveAutoLabelingRule (some (i : Int)) store =
         (store, .error (.invalidRequest ("Rule index " ++ toString i ++
            " is out of range. Available rules: 0-" ++ toString ((store.length : Int) - 1))))) := by
  have hnn : ¬ ((i : Int) < 0) := by exact_mod_cast Int.not_lt.mpr (Int.ofNat_nonneg i)
  constructor
  · intro hi
    have hres : (toolRemoveAutoLabelingRule (some (i : Int)) store).1
        = store.take i ++ store.drop (i + 1) := by
      simp only [toolRemoveAutoLabelingRule, hnn, if_false, Int.toNat_natCast]
      rw [dif_pos hi]
    have hlen : (store.take i).length = i := by
      simp [List.length_take, Nat.min_eq_left (Nat.le_of_lt hi)]
    have hget : ∀ j, j < i → (toolRemoveAutoLabelingRule (some (i : Int)) store).1[j]? = store[j]? := by
      intro j hj
      rw [hres, List.getElem?_append_left (by rw [hlen]; exact hj), List.getElem?_take_of_lt hj]
    have hget2 : ∀ j, i ≤ j →
        (toolRemoveAutoLabelingRule (some (i : Int)) store).1[j]? = store[j + 1]? := by
      intro j hj
      rw [hres, List.getElem?_append_right (by rw [hlen]; exact hj), hlen,
        List.getElem?_drop]
      congr 1
      omega
    refine ⟨?_, hget, hget2, ?_, ?_⟩
    · rw [hres]
      simp only [List.length_append, List.length_drop, hlen]
      omega
    · intro j hj
      rw [toolList_getElem?, hget j hj]
    · intro j hj
      rw [toolList_getElem?, hget2 j hj]
  · intro hi
    simp only [toolRemoveAutoLabelingRule, hnn, if_false, Int.toNat_natCast]
    rw [dif_neg (by omega)]

/-- C9 witness: concrete three-rule store, removal at index 1 shifts rule 2
down to index 1; removal at index 5 is rejected with the store unchanged. -/
theorem remove_rule_spec_witness :
    ((toolRemoveAutoLabelingRule (some ((1 : Nat) : Int))
        [{ label_name := "A" }, { label_name := "B" }, { label_name := "C" }]).1.length = 2 ∧
     (toolRemoveAutoLabelingRule (some ((1 : Nat) : Int))
        [{ label_name := "A" }, { label_name := "B" }, { label_name := "C" }]).1[1]?
        = some { label_name := "C" }) ∧
    toolRemoveAutoLabelingRule (some ((5 : Nat) : Int))
        [{ label_name := "A" }, { label_name := "B" }, { label_name := "C" }] =
      ([{ label_name := "A" }, { label_name := "B" }, { label_name := "C" }],
       .error (.invalidRequest ("Rule index " ++ toString (5 : Nat) ++
          " is out of range. Available rules: 0-" ++ toString (((3 : Nat) : Int) - 1)))) := by
  refine ⟨⟨?_, ?_⟩, ?_⟩
  · exact (remove_rule_spec [{ label_name := "A" }, { label_name := "B" },
      { label_name := "C" }] 1).1 (by decide) |>.1
  · rw [(remove_rule_spec [{ label_name := "A" }, { label_name := "B" },
      { label_name := "C" }] 1).1 (by decide) |>.2.2.1 1 (by decide)]
    rfl
  · exact (remove_rule_spec [{ label_name := "A" }, { label_name := "B" },
      { label_name := "C" }] 5).2 (by decide)

/-! ## Bulk loop lemmas -/

theorem bulkLoop_inv (total bs : Nat) (pages : List BatchPage) :
    ∀ st : BulkState, st.success + st.failed = st.processed →
      st.failed = (st.errors.map (fun e => e.2.2)).sum →
      (bulkLoop total bs pages st).success + (bulkLoop total bs pages st).failed
          = (bulkLoop total bs pages st).processed ∧
      (bulkLoop total bs pages st).failed
          = ((bulkLoop total bs pages st).errors.map (fun e => e.2.2)).sum := by
  induction pages with
  | nil => intro st h1 h2; exact ⟨h1, h2⟩
  | cons p rest ih =>
    intro st h1 h2
    simp only [bulkLoop]
    by_cases hlt : st.processed < total
    · rw [if_pos hlt]
      by_cases hz : p.msgs.length = 0
      · rw [if_pos hz]; exact ⟨h1, h2⟩
      · rw [if_neg hz]
        by_cases hc : p.callOk = true
        · simp only [hc, if_true]
          by_cases hn : p.hasNext = true
          · simp only [hn, if_true]
            exact ih _ (by simp; omega) (by simpa using h2)
          · simp only [hn, if_false]
            exact ⟨by simp; omega, by simpa using h2⟩
        · simp only [hc, if_false]
          by_cases hn : p.hasNext = true
          · simp only [hn, if_true]
            refine ih _ (by simp; omega) ?_
            simp [h2]
          · simp only [hn, if_false]
            refine ⟨by simp; omega, ?_⟩
            simp [h2]
    · rw [if_neg hlt]; exact ⟨h1, h2⟩

theorem labelLoop_fst (f : String → List String) (op : LabelOp) (lids : List String)
    (total bs : Nat) (pages : List BatchPage) :
    ∀ (st : BulkState) (log : List ModifyCall),
      (labelLoop f op lids total bs pages (st, log)).1 = bulkLoop total bs pages st := by
  induction pages with
  | nil => intro st log; rfl
  | cons p rest ih =>
    intro st log
    simp only [labelLoop, bulkLoop]
    by_cases hlt : st.processed < total
    · rw [if_pos hlt, if_pos hlt]
      by_cases hz : p.msgs.length = 0
      · rw [if_pos hz, if_pos hz]
      · rw [if_neg hz, if_neg hz]
        by_cases hn : p.hasNext = true
        · simp only [hn, if_true]; exact ih _ _
        · simp [hn]
    · rw [if_neg hlt, if_neg hlt]

theorem labelLoop_log_mem (f : String → List String) (op : LabelOp) (lids : List String)
    (total bs : Nat) (pages : List BatchPage) :
    ∀ (st : BulkState) (log : List ModifyCall) (c : ModifyCall),
      c ∈ (labelLoop f op lids total bs pages (st, log)).2 →
      c ∈ log ∨ ∃ msgs, c = pageModifyCall f op lids msgs := by
  induction pages with
  | nil => intro st log c h; exact .inl h
  | cons p rest ih =>
    intro st log c h
    simp only [labelLoop] at h
    by_cases hlt : st.processed < total
    · rw [if_pos hlt] at h
      by_cases hz : p.msgs.length = 0
      · rw [if_pos hz] at h; exact .inl h
      · rw [if_neg hz] at h
        by_cases hn : p.hasNext = true
        · simp only [hn, if_true] at h
          rcases ih _ _ _ h with hmem | hpage
          · rcases List.mem_append.mp hmem with h1 | h2
            · exact .inl h1
            · exact .inr ⟨p.msgs, (List.mem_singleton.mp h2)⟩
          · exact .inr hpage
        · simp only [hn, if_false] at h
          rcases List.mem_append.mp h with h1 | h2
          · exact .inl h1
          · exact .inr ⟨p.msgs, (List.mem_singleton.mp h2)⟩
    · rw [if_neg hlt] at h; exact .inl h

theorem bulkLoop_processes_all (total bs : Nat) (pages : List BatchPage) :
    ∀ st : BulkState, wfPages pages = true →
      st.processed + totalMsgs pages ≤ total →
      (bulkLoop total bs pages st).processed = st.processed + totalMsgs pages := by
  induction pages with
  | nil => intro st _ _; simp [bulkLoop, totalMsgs]
  | cons p rest ih =>
    intro st hwf hle
    have hparts : (0 < p.msgs.length ∧ p.hasNext = !rest.isEmpty) ∧ wfPages rest = true := by
      simpa [wfPages, Bool.and_eq_true] using hwf
    obtain ⟨⟨hp, hn⟩, hwf'⟩ := hparts
    have htot : totalMsgs (p :: rest) = p.msgs.length + totalMsgs rest := by
      simp [totalMsgs]
    have hlt : st.processed < total := by omega
    simp only [bulkLoop, if_pos hlt]
    rw [if_neg (by omega)]
    by_cases hc : p.callOk = true
    · simp only [hc, if_true]
      cases rest with
      | nil =>
        have hfalse : p.hasNext = false := by simpa using hn
        simp only [hfalse, Bool.false_eq_true, if_false]
        simp [totalMsgs]
      | cons q rs =>
        have htrue : p.hasNext = true := by simpa using hn
        simp only [htrue, if_true]
        rw [ih _ hwf' (by simp only [htot] at hle; simp; omega)]
        simp [htot]; omega
    · simp only [hc, if_false]
      cases rest with
      | nil =>
        have hfalse : p.hasNext = false := by simpa using hn
        simp only [hfalse, Bool.false_eq_true, if_false]
        simp [totalMsgs]
      | cons q rs =>
        have htrue : p.hasNext = true := by simpa using hn
        simp only [htrue, if_true]
        rw [ih _ hwf' (by simp only [htot] at hle; simp; omega)]
        simp [htot]; omega

theorem mem_of_jsDedup : ∀ (l seen : List String) (x : String), x ∈ jsDedup seen l → x ∈ l := by
  intro l
  induction l with
  | nil => intro seen x h; simp [jsDedup] at h
  | cons y ys ih =>
    intro seen x h
    simp only [jsDedup] at h
    by_cases hc : seen.contains y = true
    · rw [if_pos hc] at h
      exact List.mem_cons_of_mem _ (ih _ _ h)
    · rw [if_neg hc] at h
      rcases List.mem_cons.mp h with h1 | h2
      · exact h1 ▸ List.mem_cons_self _ _
      · exact List.mem_cons_of_mem _ (ih _ _ h2)

theorem replaceRemoveIds_spec (cur : List (List String)) :
    ∀ x ∈ replaceRemoveIds cur, x ∉ systemLabels ∧ x ∈ cur.flatten := by
  intro x hx
  unfold replaceRemoveIds at hx
  have hx' := mem_of_jsDedup _ _ _ hx
  rw [List.mem_filter] at hx'
  refine ⟨?_, hx'.1⟩
  intro hmem
  have hc : systemLabels.contains x = true := by
    simp only [List.contains]
    exact List.elem_eq_true_of_mem hmem
  have hnc := hx'.2
  rw [hc] at hnc
  simp at hnc

/-! ## C4: successful + failed == total_processed -/

/-- C4: every terminating run of toolBulkDeleteEmails and toolBulkLabelEmails
returns counters with successful + failed = total_processed, and failed equal
to the sum of the item counts of the recorded per-batch error entries (each
entry holding batch index, error message and item count). -/
theorem bulk_counts_add_up (q lq : Option String) (bs lbs : Option Nat) (d1 d2 : Bool)
    (mb : BulkMailbox) (lids : List String) (op : LabelOp) (lmb : LabelMailbox) :
    delToolInvariant (toolBulkDeleteEmails q bs d1 mb) ∧
    labelToolInvariant (toolBulkLabelEmails lq lids op lbs d2 lmb) := by
  constructor
  · unfold toolBulkDeleteEmails delToolInvariant
    by_cases hq : (!strTruthy q) = true
    · simp [hq]
    · simp only [hq, Bool.false_eq_true, if_false]
      by_cases he : mb.estimate = 0
      · simp [he, bulkInvariant]
      · simp only [he, if_false]
        by_cases hd : d1 = true
        · simp [hd, bulkInvariant]
        · simp only [hd, Bool.false_eq_true, if_false]
          exact bulkLoop_inv _ _ _ initBulkState rfl rfl
  · unfold toolBulkLabelEmails labelToolInvariant
    by_cases hq : (!strTruthy lq) = true
    · simp [hq]
    · simp only [hq, Bool.false_eq_true, if_false]
      by_cases hl : lids.length = 0
      · simp [hl]
      · simp only [hl, if_false]
        by_cases he : lmb.estimate = 0
        · simp [he, bulkInvariant]
        · simp only [he, if_false]
          by_cases hd : d2 = true
          · simp [hd, bulkInvariant]
          · simp only [hd, Bool.false_eq_true, if_false]
            simp only [bulkInvariant]
            rw [labelLoop_fst]
            exact bulkLoop_inv _ _ _ initBulkState rfl rfl

/-! ## C1: the probe estimate and loop termination -/

/-- Mailbox whose probe estimate (1) undercounts the 15 matching messages
spread over two linked pages. -/
def mbC1 : BulkMailbox :=
  { estimate := 1,
    pages := [
      { msgs := ["m1","m2","m3","m4","m5","m6","m7","m8","m9","m10"],
        hasNext := true, callOk := true },
      { msgs := ["n1","n2","n3","n4","n5"], hasNext := false, callOk := true } ] }

/-- C1 counterexample: with an undercounting estimate the loop of
toolBulkDeleteEmails stops after the first page — although that page was
nonempty and carried a next-page token — because processedCount has reached
the probe estimate; only 10 of the 15 matching messages are processed. -/
theorem bulk_estimate_terminates_loop_cex :
    toolBulkDeleteEmails (some "q") none false mbC1
      = .ok (.completed ⟨10, 10, 0, []⟩ 100 1) ∧
    totalMsgs mbC1.pages = 15 ∧ (10 : Nat) ≠ 15 := by
  refine ⟨rfl, rfl, by decide⟩

/-- C1 (amended): the pagination loop of both bulk tools terminates when a
page is empty, when no next-page token is returned, or once processedCount
has reached the probe's resultSizeEstimate; consequently every matching
message is processed whenever the estimate is at least the true total (for
well-formed page sequences), but not in general when it undercounts. -/
theorem bulk_processes_all_when_estimate_covers (q lq : Option String) (bs lbs : Option Nat)
    (mb : BulkMailbox) (lmb : LabelMailbox) (lids : List String) (op : LabelOp)
    (hq : strTruthy q = true) (hlq : strTruthy lq = true) (hlids : 0 < lids.length)
    (hwf : wfPages mb.pages = true) (hwf2 : wfPages lmb.pages = true)
    (hest : totalMsgs mb.pages ≤ mb.estimate) (hest2 : totalMsgs lmb.pages ≤ lmb.estimate) :
    delProcessedOf (toolBulkDeleteEmails q bs false mb) = totalMsgs mb.pages ∧
    labelProcessedOf (toolBulkLabelEmails lq lids op lbs false lmb) = totalMsgs lmb.pages := by
  constructor
  · unfold toolBulkDeleteEmails
    simp only [hq, Bool.not_true, Bool.false_eq_true, if_false]
    by_cases he : mb.estimate = 0
    · have h0 : totalMsgs mb.pages = 0 := by omega
      simp [he, delProcessedOf, h0]
    · simp only [he, if_false, Bool.false_eq_true, delProcessedOf]
      have hall := bulkLoop_processes_all mb.estimate (max 10 (min 500 (jsNumOr bs 100)))
        mb.pages initBulkState hwf (by simpa [initBulkState] using hest)
      simpa [initBulkState] using hall
  · unfold toolBulkLabelEmails
    simp only [hlq, Bool.not_true, Bool.false_eq_true, if_false]
    rw [if_neg (by omega)]
    by_cases he : lmb.estimate = 0
    · have h0 : totalMsgs lmb.pages = 0 := by omega
      simp [he, labelProcessedOf, h0]
    · simp only [he, if_false, Bool.false_eq_true, labelProcessedOf]
      rw [labelLoop_fst]
      have hall := bulkLoop_processes_all lmb.estimate (max 10 (min 500 (lbs.getD 100)))
        lmb.pages initBulkState hwf2 (by simpa [initBulkState] using hest2)
      simpa [initBulkState] using hall

/-- Well-formed two-page mailbox with estimate equal to the true total. -/
def mbC1w : BulkMailbox :=
  { estimate := 15,
    pages := [
      { msgs := ["m1","m2","m3","m4","m5","m6","m7","m8","m9","m10"],
        hasNext := true, callOk := true },
      { msgs := ["n1","n2","n3","n4","n5"], hasNext := false, callOk := true } ] }

/-- Label-tool variant of `mbC1w`. -/
def lmbC1w : LabelMailbox :=
  { estimate := 15,
    pages := [
      { msgs := ["m1","m2","m3","m4","m5","m6","m7","m8","m9","m10"],
        hasNext := true, callOk := true },
      { msgs := ["n1","n2","n3","n4","n5"], hasNext := false, callOk := true } ],
    msgLabels := fun _ => [] }

/-- C1 amended-theorem witness at a concrete covered mailbox. -/
theorem bulk_processes_all_witness :
    delProcessedOf (toolBulkDeleteEmails (some "q") none false mbC1w) = totalMsgs mbC1w.pages ∧
    labelProcessedOf (toolBulkLabelEmails (some "q") ["L1"] .add none false lmbC1w)
      = totalMsgs lmbC1w.pages :=
  bulk_processes_all_when_estimate_covers (some "q") (some "q") none none mbC1w lmbC1w
    ["L1"] .add rfl rfl (by decide) (by decide) (by decide) (by decide) (by decide)

/-! ## C3: chunk failure and the per-item fallback -/

/-- Delete-by-query scenario: the batch call fails, every individual call succeeds. -/
def delBehC3 : DelBehavior :=
  { msgs := ["a", "b"], batchOk := false, itemOk := fun _ => true }

/-- Bulk-label scenario: the single page's batch call fails. -/
def lmbC3 : LabelMailbox :=
  { estimate := 2,
    pages := [{ msgs := ["a", "b"], hasNext := false, callOk := false, errMsg := "boom" }],
    msgLabels := fun _ => [] }

/-- C3 counterexample: in the bulk_label_emails path a failed chunk is
recorded wholly as failed with successful = 0 — there is no per-item
fallback — while the identical scenario in the delete_emails_by_query path
recovers both items through its per-item fallback. -/
theorem chunk_fallback_cex :
    toolBulkLabelEmails (some "q") ["L1"] .add none false lmbC3
      = .ok (.completed ⟨2, 0, 2, [(1, "boom", 2)]⟩ 100 1,
          [{ ids := ["a", "b"], removeLabelIds := [], addLabelIds := ["L1"] }]) ∧
    toolDeleteEmailsByQuery (some "q") true false delBehC3
      = .ok (.deleted 2 0 ["a", "b"]) := by
  exact ⟨rfl, rfl⟩

/-- C3 (amended): in the delete_emails_by_query path a failed batch call
triggers a per-item fallback, so successful equals the number of
individually-succeeding messages and failed the number of individually
failing ones; in the bulk_label_emails path a failed chunk contributes its
whole message count to failed and nothing to successful, with no per-item
fallback. -/
theorem chunk_failure_strategies (q lq : Option String) (perm : Bool) (beh : DelBehavior)
    (lids : List String) (op : LabelOp) (lbs : Option Nat)
    (p : BatchPage) (f : String → List String) (e : Nat)
    (hq : strTruthy q = true) (hbatch : beh.batchOk = false) (hne : beh.msgs.length ≠ 0)
    (hlq : strTruthy lq = true) (hlids : 0 < lids.length) (he : 0 < e)
    (hcall : p.callOk = false) (hp : 0 < p.msgs.length) :
    toolDeleteEmailsByQuery q perm false beh
      = .ok (.deleted (beh.msgs.filter beh.itemOk).length
          ((beh.msgs.filter (fun i => !(beh.itemOk i))).length)
          (beh.msgs.filter beh.itemOk)) ∧
    labelSuccessOf (toolBulkLabelEmails lq lids op lbs false ⟨e, [p], f⟩) = 0 ∧
    labelFailedOf (toolBulkLabelEmails lq lids op lbs false ⟨e, [p], f⟩) = p.msgs.length := by
  have hdel : toolDeleteEmailsByQuery q perm false beh
      = .ok (.deleted (beh.msgs.filter beh.itemOk).length
          ((beh.msgs.filter (fun i => !(beh.itemOk i))).length)
          (beh.msgs.filter beh.itemOk)) := by
    unfold toolDeleteEmailsByQuery
    simp [hq, hne, hbatch]
  refine ⟨hdel, ?_⟩
  unfold toolBulkLabelEmails
  simp only [hlq, Bool.not_true, Bool.false_eq_true, if_false]
  rw [if_neg (by omega), if_neg (by omega)]
  have hloop : (labelLoop f op lids e (max 10 (min 500 (lbs.getD 100))) [p]
      (initBulkState, [])).1
      = { processed := p.msgs.length, success := 0, failed := p.msgs.length,
          errors := [(1, p.errMsg, p.msgs.length)] } := by
    rw [labelLoop_fst]
    simp only [bulkLoop, initBulkState]
    rw [if_pos (by simpa using he), if_neg (by omega)]
    simp only [hcall, Bool.false_eq_true, if_false]
    by_cases hn : p.hasNext = true
    · simp only [hn, if_true]
      simp [bulkLoop, Nat.zero_div]
    · simp [hn, Nat.zero_div]
  constructor
  · simp only [labelSuccessOf]
    rw [hloop]
  · simp only [labelFailedOf]
    rw [hloop]

/-- Delete scenario for the amended-theorem witness: only "a" succeeds individually. -/
def delBehC3w : DelBehavior :=
  { msgs := ["a", "b"], batchOk := false, itemOk := fun i => i == "a" }

/-- C3 amended-theorem witness: concrete failed chunks in both paths. -/
theorem chunk_failure_strategies_witness :
    toolDeleteEmailsByQuery (some "q") false false delBehC3w
      = .ok (.deleted (delBehC3w.msgs.filter delBehC3w.itemOk).length
          ((delBehC3w.msgs.filter (fun i => !(delBehC3w.itemOk i))).length)
          (delBehC3w.msgs.filter delBehC3w.itemOk)) ∧
    labelSuccessOf (toolBulkLabelEmails (some "z") ["L2"] .remove none false
      ⟨3, [{ msgs := ["c","d","e"], hasNext := false, callOk := false, errMsg := "x" }],
        fun _ => []⟩) = 0 ∧
    labelFailedOf (toolBulkLabelEmails (some "z") ["L2"] .remove none false
      ⟨3, [{ msgs := ["c","d","e"], hasNext := false, callOk := false, errMsg := "x" }],
        fun _ => []⟩) = 3 :=
  chunk_failure_strategies (some "q") (some "z") false delBehC3w ["L2"] .remove none
    { msgs := ["c","d","e"], hasNext := false, callOk := false, errMsg := "x" }
    (fun _ => []) 3 rfl rfl (by decide) rfl (by decide) (by decide) rfl (by decide)

/-! ## C7: the replace operation never removes system labels -/

/-- C7: in a replace run of toolBulkLabelEmails, every batch-modify request
has addLabelIds equal to the requested label_ids, and its removeLabelIds are
drawn from the chunk's messages' current labels with every system label
filtered out. -/
theorem bulk_replace_never_removes_system_labels
    (q : Option String) (lids : List String) (bs : Option Nat) (mb : LabelMailbox)
    (r : BulkResult) (log : List ModifyCall)
    (h : toolBulkLabelEmails q lids .replace bs false mb = .ok (r, log)) :
    ∀ c ∈ log, c.addLabelIds = lids ∧
      ∀ x ∈ c.removeLabelIds, x ∉ systemLabels ∧ x ∈ (c.ids.map mb.msgLabels).flatten := by
  unfold toolBulkLabelEmails at h
  by_cases hq : (!strTruthy q) = true
  · rw [if_pos hq] at h; exact absurd h (by simp)
  · rw [if_neg hq] at h
    by_cases hl : lids.length = 0
    · rw [if_pos hl] at h; exact absurd h (by simp)
    · rw [if_neg hl] at h
      by_cases he : mb.estimate = 0
      · rw [if_pos he] at h
        simp only [Except.ok.injEq, Prod.mk.injEq] at h
        have hlog : log = [] := h.2.symm
        subst hlog
        intro c hc
        exact absurd hc (by simp)
      · rw [if_neg he] at h
        simp only [Bool.false_eq_true, if_false, Except.ok.injEq, Prod.mk.injEq] at h
        have hlog : log = (labelLoop mb.msgLabels .replace lids mb.estimate
            (max 10 (min 500 (bs.getD 100))) mb.pages (initBulkState, [])).2 := h.2.symm
        intro c hc
        rw [hlog] at hc
        rcases labelLoop_log_mem _ _ _ _ _ _ _ _ _ hc with hmem | ⟨msgs, hcall⟩
        · exact absurd hmem (by simp)
        · subst hcall
          refine ⟨rfl, ?_⟩
          intro x hx
          exact replaceRemoveIds_spec _ x hx

/-- Mailbox for the replace scenario: one message labeled INBOX, UNREAD, Project-X. -/
def lmbC7 : LabelMailbox :=
  { estimate := 1,
    pages := [{ msgs := ["m1"], hasNext := false, callOk := true }],
    msgLabels := fun i => if i == "m1" then ["INBOX", "UNREAD", "Project-X"] else [] }

/-- C7 witness: replacing the labels of a message labeled INBOX, UNREAD and
Project-X with Project-Y sends removeLabelIds = [Project-X] (no system
labels) and addLabelIds = [Project-Y]. -/
theorem bulk_replace_witness :
    (∀ c ∈ [({ ids := ["m1"], removeLabelIds := ["Project-X"],
               addLabelIds := ["Project-Y"] } : ModifyCall)],
       c.addLabelIds = ["Project-Y"] ∧
       ∀ x ∈ c.removeLabelIds, x ∉ systemLabels ∧ x ∈ (c.ids.map lmbC7.msgLabels).flatten) ∧
    toolBulkLabelEmails (some "q") ["Project-Y"] .replace none false lmbC7
      = .ok (.completed ⟨1, 1, 0, []⟩ 100 1,
          [{ ids := ["m1"], removeLabelIds := ["Project-X"], addLabelIds := ["Project-Y"] }]) :=
  ⟨bulk_replace_never_removes_system_labels (some "q") ["Project-Y"] none lmbC7 _ _ rfl, rfl⟩

/-! ## Rule runner lemmas -/

theorem enumFrom_filter_map_snd (en : Rule → Bool) :
    ∀ (l : List Rule) (k : Nat),
      ((List.enumFrom k l).filter (fun p => en p.2)).map Prod.snd = l.filter en := by
  intro l
  induction l with
  | nil => intro k; rfl
  | cons a as ih =>
    intro k
    simp only [List.enumFrom_cons, List.filter_cons]
    by_cases ha : en a = true
    · simp only [ha, if_true, List.map_cons, ih]
    · simp only [ha, Bool.false_eq_true, if_false, ih]

theorem enabledPairs_map_snd (rules : List Rule) :
    (enabledPairs rules).map Prod.snd = rules.filter (fun r => !(r.enabled == some false)) := by
  unfold enabledPairs
  exact enumFrom_filter_map_snd (fun r => !(r.enabled == some false)) rules 0

theorem enabledPairs_length (rules : List Rule) :
    (enabledPairs rules).length
      = (rules.filter (fun r => !(r.enabled == some false))).length := by
  rw [← enabledPairs_map_snd, List.length_map]

theorem runRulesLoop_counts (beh : RunBehavior) (dry : Bool) (mb : Nat) (now : String) :
    ∀ (pairs : List (Nat × Rule)) (st : RunState) (res : List (String × RuleResult))
      (errs : List (String × String)),
      (runRulesLoop beh dry mb now pairs st res errs).2.1.length +
        (runRulesLoop beh dry mb now pairs st res errs).2.2.length
        = res.length + errs.length + pairs.length := by
  intro pairs
  induction pairs with
  | nil => intro st res errs; simp [runRulesLoop]
  | cons p rest ih =>
    intro st res errs
    rcases hstep : ruleStepInner beh dry mb now st p with ⟨st', out⟩
    cases out with
    | ok v =>
      have hred : runRulesLoop beh dry mb now (p :: rest) st res errs
          = runRulesLoop beh dry mb now rest st' (res ++ [(p.2.label_name, v)]) errs := by
        simp only [runRulesLoop, hstep]
      rw [hred, ih]
      simp only [List.length_append, List.length_cons, List.length_nil]
      omega
    | error e =>
      have hred : runRulesLoop beh dry mb now (p :: rest) st res errs
          = runRulesLoop beh dry mb now rest st' res (errs ++ [(p.2.label_name, e)]) := by
        simp only [runRulesLoop, hstep]
      rw [hred, ih]
      simp only [List.length_append, List.length_cons, List.length_nil]
      omega

theorem runRulesLoop_errs_sublist (beh : RunBehavior) (dry : Bool) (mb : Nat) (now : String) :
    ∀ (pairs : List (Nat × Rule)) (st : RunState) (res : List (String × RuleResult))
      (errs : List (String × String)),
      List.Sublist ((runRulesLoop beh dry mb now pairs st res errs).2.2.map Prod.fst)
        (errs.map Prod.fst ++ pairs.map (fun p => p.2.label_name)) := by
  intro pairs
  induction pairs with
  | nil => intro st res errs; simp [runRulesLoop]
  | cons p rest ih =>
    intro st res errs
    rcases hstep : ruleStepInner beh dry mb now st p with ⟨st', out⟩
    cases out with
    | ok v =>
      have hred : runRulesLoop beh dry mb now (p :: rest) st res errs
          = runRulesLoop beh dry mb now rest st' (res ++ [(p.2.label_name, v)]) errs := by
        simp only [runRulesLoop, hstep]
      rw [hred]
      refine (ih st' _ errs).trans ?_
      exact List.Sublist.append_left (List.sublist_cons_self _ _) _
    | error e =>
      have hred : runRulesLoop beh dry mb now (p :: rest) st res errs
          = runRulesLoop beh dry mb now rest st' res (errs ++ [(p.2.label_name, e)]) := by
        simp only [runRulesLoop, hstep]
      rw [hred]
      have h2 := ih st' res (errs ++ [(p.2.label_name, e)])
      simpa [List.append_assoc] using h2

theorem runRulesLoop_res_sublist (beh : RunBehavior) (dry : Bool) (mb : Nat) (now : String) :
    ∀ (pairs : List (Nat × Rule)) (st : RunState) (res : List (String × RuleResult))
      (errs : List (String × String)),
      List.Sublist ((runRulesLoop beh dry mb now pairs st res errs).2.1.map Prod.fst)
        (res.map Prod.fst ++ pairs.map (fun p => p.2.label_name)) := by
  intro pairs
  induction pairs with
  | nil => intro st res errs; simp [runRulesLoop]
  | cons p rest ih =>
    intro st res errs
    rcases hstep : ruleStepInner beh dry mb now st p with ⟨st', out⟩
    cases out with
    | ok v =>
      have hred : runRulesLoop beh dry mb now (p :: rest) st res errs
          = runRulesLoop beh dry mb now rest st' (res ++ [(p.2.label_name, v)]) errs := by
        simp only [runRulesLoop, hstep]
      rw [hred]
      have h2 := ih st' (res ++ [(p.2.label_name, v)]) errs
      simpa [List.append_assoc] using h2
    | error e =>
      have hred : runRulesLoop beh dry mb now (p :: rest) st res errs
          = runRulesLoop beh dry mb now rest st' res (errs ++ [(p.2.label_name, e)]) := by
        simp only [runRulesLoop, hstep]
      rw [hred]
      refine (ih st' res _).trans ?_
      exact List.Sublist.append_left (List.sublist_cons_self _ _) _

/-! ## C6: enabled-rule selection and failure isolation -/

/-- C6: run_auto_labeling_rules produces exactly one outcome per rule with
enabled !== false (so a thrown per-rule exception never prevents processing
of the remaining rules), and both the error entries and the result entries
are tagged, in order, with label names drawn from the enabled rules. -/
theorem run_rules_failure_isolation (beh : RunBehavior) (dry : Bool) (mb : Nat)
    (now : String) (st : RunState) :
    (outResults (toolRunAutoLabelingRules beh dry mb now st).2).length +
      (outErrors (toolRunAutoLabelingRules beh dry mb now st).2).length
      = (st.rules.filter (fun r => !(r.enabled == some false))).length ∧
    List.Sublist ((outErrors (toolRunAutoLabelingRules beh dry mb now st).2).map Prod.fst)
      ((st.rules.filter (fun r => !(r.enabled == some false))).map (fun r => r.label_name)) ∧
    List.Sublist ((outResults (toolRunAutoLabelingRules beh dry mb now st).2).map Prod.fst)
      ((st.rules.filter (fun r => !(r.enabled == some false))).map (fun r => r.label_name)) := by
  have hnames : (enabledPairs st.rules).map (fun p => p.2.label_name)
      = (st.rules.filter (fun r => !(r.enabled == some false))).map (fun r => r.label_name) := by
    rw [← enabledPairs_map_snd, List.map_map]
    rfl
  simp only [toolRunAutoLabelingRules]
  by_cases hz : (enabledPairs st.rules).length = 0
  · rw [if_pos hz]
    have hflen : (st.rules.filter (fun r => !(r.enabled == some false))).length = 0 := by
      rw [← enabledPairs_length]
      exact hz
    refine ⟨?_, ?_, ?_⟩
    · simp [outResults, outErrors, hflen]
    · simp [outErrors]
    · simp [outResults]
  · rw [if_neg hz]
    refine ⟨?_, ?_, ?_⟩
    · simp only [outResults, outErrors]
      rw [runRulesLoop_counts, ← enabledPairs_length]
      simp
    · simp only [outErrors]
      have h := runRulesLoop_errs_sublist beh dry mb now (enabledPairs st.rules) st [] []
      rw [hnames] at h
      simpa using h
    · simp only [outResults]
      have h := runRulesLoop_res_sublist beh dry mb now (enabledPairs st.rules) st [] []
      rw [hnames] at h
      simpa using h

/-! ## C5 lemmas -/

theorem autoLoop_errs_mono (beh : RunBehavior) (dry : Bool) :
    ∀ (rules : List Rule) (st : RunState) (res : List (String × AutoResult))
      (errs : List (String × String)) (e : String × String),
      e ∈ errs → e ∈ (autoLoop beh dry rules st res errs).2.2 := by
  intro rules
  induction rules with
  | nil => intro st res errs e he; simpa [autoLoop] using he
  | cons a rest ih =>
    intro st res errs e he
    rcases hstep : autoStep beh dry st a with ⟨st', out⟩
    cases out with
    | ok v =>
      have hred : autoLoop beh dry (a :: rest) st res errs
          = autoLoop beh dry rest st' (res ++ [v]) errs := by
        simp only [autoLoop, hstep]
      rw [hred]
      exact ih _ _ _ _ he
    | error e2 =>
      have hred : autoLoop beh dry (a :: rest) st res errs
          = autoLoop beh dry rest st' res (errs ++ [e2]) := by
        simp only [autoLoop, hstep]
      rw [hred]
      exact ih _ _ _ _ (List.mem_append.mpr (.inl he))

theorem autoLoop_counts (beh : RunBehavior) (dry : Bool) :
    ∀ (rules : List Rule) (st : RunState) (res : List (String × AutoResult))
      (errs : List (String × String)),
      (autoLoop beh dry rules st res errs).2.1.length +
        (autoLoop beh dry rules st res errs).2.2.length
        = res.length + errs.length + rules.length := by
  intro rules
  induction rules with
  | nil => intro st res errs; simp [autoLoop]
  | cons a rest ih =>
    intro st res errs
    rcases hstep : autoStep beh dry st a with ⟨st', out⟩
    cases out with
    | ok v =>
      have hred : autoLoop beh dry (a :: rest) st res errs
          = autoLoop beh dry rest st' (res ++ [v]) errs := by
        simp only [autoLoop, hstep]
      rw [hred, ih]
      simp only [List.length_append, List.length_cons, List.length_nil]
      omega
    | error e2 =>
      have hred : autoLoop beh dry (a :: rest) st res errs
          = autoLoop beh dry rest st' res (errs ++ [e2]) := by
        simp only [autoLoop, hstep]
      rw [hred, ih]
      simp only [List.length_append, List.length_cons, List.length_nil]
      omega

theorem autoLoop_no_criteria_mem (beh : RunBehavior) (dry : Bool) :
    ∀ (rules : List Rule) (st : RunState) (res : List (String × AutoResult))
      (errs : List (String × String)) (r : Rule),
      r ∈ rules → synthQueryAuto r = "" →
      (r.label_name, "No search criteria provided (need sender_pattern, subject_pattern, or query)")
        ∈ (autoLoop beh dry rules st res errs).2.2 := by
  intro rules
  induction rules with
  | nil => intro st res errs r hr; exact absurd hr (by simp)
  | cons a rest ih =>
    intro st res errs r hr hq
    rcases List.mem_cons.mp hr with heq | hmem
    · subst heq
      have hstep : autoStep beh dry st r
          = (st, .error (r.label_name,
              "No search criteria provided (need sender_pattern, subject_pattern, or query)")) := by
        simp [autoStep, hq]
      have hred : autoLoop beh dry (r :: rest) st res errs
          = autoLoop beh dry rest st res (errs ++ [(r.label_name,
              "No search criteria provided (need sender_pattern, subject_pattern, or query)")]) := by
        simp only [autoLoop, hstep]
      rw [hred]
      exact autoLoop_errs_mono beh dry rest st res _ _ (by simp)
    · rcases hstep : autoStep beh dry st a with ⟨st', out⟩
      cases out with
      | ok v =>
        have hred : autoLoop beh dry (a :: rest) st res errs
            = autoLoop beh dry rest st' (res ++ [v]) errs := by
          simp only [autoLoop, hstep]
        rw [hred]
        exact ih _ _ _ _ hmem hq
      | error e2 =>
        have hred : autoLoop beh dry (a :: rest) st res errs
            = autoLoop beh dry rest st' res (errs ++ [e2]) := by
          simp only [autoLoop, hstep]
        rw [hred]
        exact ih _ _ _ _ hmem hq

theorem runRulesLoop_res_mono (beh : RunBehavior) (dry : Bool) (mb : Nat) (now : String) :
    ∀ (pairs : List (Nat × Rule)) (st : RunState) (res : List (String × RuleResult))
      (errs : List (String × String)) (e : String × RuleResult),
      e ∈ res → e ∈ (runRulesLoop beh dry mb now pairs st res errs).2.1 := by
  intro pairs
  induction pairs with
  | nil => intro st res errs e he; simpa [runRulesLoop] using he
  | cons p rest ih =>
    intro st res errs e he
    rcases hstep : ruleStepInner beh dry mb now st p with ⟨st', out⟩
    cases out with
    | ok v =>
      have hred : runRulesLoop beh dry mb now (p :: rest) st res errs
          = runRulesLoop beh dry mb now rest st' (res ++ [(p.2.label_name, v)]) errs := by
        simp only [runRulesLoop, hstep]
      rw [hred]
      exact ih _ _ _ _ (List.mem_append.mpr (.inl he))
    | error e2 =>
      have hred : runRulesLoop beh dry mb now (p :: rest) st res errs
          = runRulesLoop beh dry mb now rest st' res (errs ++ [(p.2.label_name, e2)]) := by
        simp only [runRulesLoop, hstep]
      rw [hred]
      exact ih _ _ _ _ he

theorem ruleStepInner_no_criteria (beh : RunBehavior) (dry : Bool) (mb : Nat) (now : String)
    (st : RunState) (p : Nat × Rule)
    (hq : synthQueryRun p.2 = "") (hco : beh.createOk p.2.label_name = true) :
    ∃ st' lid, ruleStepInner beh dry mb now st p = (st', .ok (.noSearchCriteria lid)) := by
  unfold ruleStepInner
  cases hfind : findLabel st.labels p.2.label_name with
  | some l =>
    refine ⟨st, l.id, ?_⟩
    simp [ruleStepAfterLabel, hq]
  | none =>
    refine ⟨?_, "Label_" ++ toString st.nextId, ?_⟩
    · exact { st with
        labels := st.labels ++ [{ id := "Label_" ++ toString st.nextId, name := p.2.label_name }],
        nextId := st.nextId + 1 }
    · simp [hco, ruleStepAfterLabel, hq]

theorem runLoop_no_criteria_mem (beh : RunBehavior) (dry : Bool) (mb : Nat) (now : String) :
    ∀ (pairs : List (Nat × Rule)) (st : RunState) (res : List (String × RuleResult))
      (errs : List (String × String)) (p : Nat × Rule),
      p ∈ pairs → synthQueryRun p.2 = "" → beh.createOk p.2.label_name = true →
      ∃ lid, (p.2.label_name, RuleResult.noSearchCriteria lid)
        ∈ (runRulesLoop beh dry mb now pairs st res errs).2.1 := by
  intro pairs
  induction pairs with
  | nil => intro st res errs p hp; exact absurd hp (by simp)
  | cons a rest ih =>
    intro st res errs p hp hq hco
    rcases List.mem_cons.mp hp with heq | hmem
    · subst heq
      obtain ⟨st', lid, hstep⟩ := ruleStepInner_no_criteria beh dry mb now st p hq hco
      have hred : runRulesLoop beh dry mb now (p :: rest) st res errs
          = runRulesLoop beh dry mb now rest st'
              (res ++ [(p.2.label_name, .noSearchCriteria lid)]) errs := by
        simp only [runRulesLoop, hstep]
      refine ⟨lid, ?_⟩
      rw [hred]
      exact runRulesLoop_res_mono beh dry mb now rest st' _ errs _ (by simp)
    · rcases hstep : ruleStepInner beh dry mb now st a with ⟨st', out⟩
      cases out with
      | ok v =>
        have hred : runRulesLoop beh dry mb now (a :: rest) st res errs
            = runRulesLoop beh dry mb now rest st' (res ++ [(a.2.label_name, v)]) errs := by
          simp only [runRulesLoop, hstep]
        rw [hred]
        exact ih _ _ _ _ hmem hq hco
      | error e2 =>
        have hred : runRulesLoop beh dry mb now (a :: rest) st res errs
            = runRulesLoop beh dry mb now rest st' res (errs ++ [(a.2.label_name, e2)]) := by
          simp only [runRulesLoop, hstep]
        rw [hred]
        exact ih _ _ _ _ hmem hq hco

/-! ## C5: empty effective query at creation time vs run time -/

/-- C5: a rule resolving to an empty effective query (no query,
sender_pattern, subject_pattern or subject_contains) is rejected at creation
time by add_auto_labeling_rule with InvalidParams and an unchanged store;
auto_label_emails instead records a per-rule no-search-criteria error entry
and run_auto_labeling_rules records a no_search_criteria result at run time,
each still producing one outcome per processed rule (no crash, no wildcard). -/
theorem empty_criteria_handling
    (args : AddArgs) (now : String) (store : List Rule)
    (beh : RunBehavior) (dry : Bool) (argRules : List Rule) (st : RunState) (r : Rule)
    (beh2 : RunBehavior) (dry2 : Bool) (mb : Nat) (now2 : String) (st2 : RunState)
    (p : Nat × Rule) :
    (strTruthy args.label_name = true → strTruthy args.query = false →
     strTruthy args.sender_pattern = false → strTruthy args.subject_pattern = false →
     listNonempty args.subject_contains = false →
     toolAddAutoLabelingRule args now store
       = (store, .error (.invalidParams
           "No search criteria provided (need sender_pattern, subject_pattern, subject_contains, or query)"))) ∧
    (r ∈ argRules → synthQueryAuto r = "" →
     (r.label_name, "No search criteria provided (need sender_pattern, subject_pattern, or query)")
       ∈ autoOutErrs (toolAutoLabelEmails beh dry argRules st) ∧
     (autoOutRes (toolAutoLabelEmails beh dry argRules st)).length +
       (autoOutErrs (toolAutoLabelEmails beh dry argRules st)).length = argRules.length) ∧
    (p ∈ enabledPairs st2.rules → synthQueryRun p.2 = "" →
     beh2.createOk p.2.label_name = true →
     ∃ lid, (p.2.label_name, RuleResult.noSearchCriteria lid)
       ∈ outResults (toolRunAutoLabelingRules beh2 dry2 mb now2 st2).2) := by
  refine ⟨?_, ?_, ?_⟩
  · intro hl hq hs hp hc
    have hsq : synthQueryAdd
        { label_name := args.label_name.getD "", sender_pattern := args.sender_pattern,
          subject_pattern := args.subject_pattern, subject_contains := args.subject_contains,
          query := args.query } = "" := by
      simp [synthQueryAdd, synthConds, hq, hs, hp, hc]
    simp [toolAddAutoLabelingRule, hl, hsq]
  · intro hmem hq
    have hnz : ¬ argRules.length = 0 := by
      have hne := List.ne_nil_of_mem hmem
      simpa [List.length_eq_zero] using hne
    have htool : toolAutoLabelEmails beh dry argRules st
        = .ok (autoLoop beh dry argRules st [] []) := by
      unfold toolAutoLabelEmails
      rw [if_neg hnz]
    rw [htool]
    simp only [autoOutErrs, autoOutRes]
    refine ⟨autoLoop_no_criteria_mem beh dry argRules st [] [] r hmem hq, ?_⟩
    rw [autoLoop_counts]
    simp
  · intro hp hq hco
    have hnz : ¬ (enabledPairs st2.rules).length = 0 := by
      have hne := List.ne_nil_of_mem hp
      simpa [List.length_eq_zero] using hne
    simp only [toolRunAutoLabelingRules]
    rw [if_neg hnz]
    simp only [outResults]
    exact runLoop_no_criteria_mem beh2 dry2 mb now2 (enabledPairs st2.rules) st2 [] [] p
      hp hq hco

/-- Rule with no search criteria at all. -/
def emptyRuleC5 : Rule := { label_name := "E" }

/-- Behavior where every create/search/modify succeeds and every search is empty. -/
def behC5 : RunBehavior :=
  { search := fun _ => [], createOk := fun _ => true,
    modifyOk := fun _ _ => true, searchOk := fun _ => true }

/-- State holding only the criteria-less rule. -/
def stC5 : RunState :=
  { labels := [], nextId := 0, rules := [emptyRuleC5], store := [emptyRuleC5], modifyLog := [] }

/-- C5 witness at concrete inputs for all three paths. -/
theorem empty_criteria_handling_witness :
    toolAddAutoLabelingRule { label_name := some "X" } "T" []
      = ([], .error (.invalidParams
          "No search criteria provided (need sender_pattern, subject_pattern, subject_contains, or query)")) ∧
    ((("E" : String), "No search criteria provided (need sender_pattern, subject_pattern, or query)")
       ∈ autoOutErrs (toolAutoLabelEmails behC5 false [emptyRuleC5] stC5) ∧
     (autoOutRes (toolAutoLabelEmails behC5 false [emptyRuleC5] stC5)).length +
       (autoOutErrs (toolAutoLabelEmails behC5 false [emptyRuleC5] stC5)).length = 1) ∧
    (∃ lid, (("E" : String), RuleResult.noSearchCriteria lid)
       ∈ outResults (toolRunAutoLabelingRules behC5 false 10 "T" stC5).2) := by
  have h := empty_criteria_handling { label_name := some "X" } "T" [] behC5 false
    [emptyRuleC5] stC5 emptyRuleC5 behC5 false 10 "T" stC5 (0, emptyRuleC5)
  refine ⟨h.1 rfl rfl rfl rfl rfl, h.2.1 (by simp) rfl, h.2.2 (by decide) rfl rfl⟩

/-! ## C8 lemmas: dry run frame and idempotence -/

theorem ruleStepAfterLabel_dry (beh : RunBehavior) (mb : Nat) (now : String)
    (st : RunState) (p : Nat × Rule) (lid : String) :
    ruleStepAfterLabel beh true mb now st p lid = (st, dryOut beh mb p lid) := by
  dsimp only [ruleStepAfterLabel, dryOut]
  split_ifs <;> first | rfl | simp_all

theorem extendsB_refl (beh : RunBehavior) (s : RunState) : ExtendsB beh s s :=
  ⟨rfl, rfl, rfl, [], by simp, by simp⟩

theorem extendsB_trans (beh : RunBehavior) (s t u : RunState)
    (h1 : ExtendsB beh s t) (h2 : ExtendsB beh t u) : ExtendsB beh s u := by
  obtain ⟨hr1, hs1, hm1, ex1, hl1, hc1⟩ := h1
  obtain ⟨hr2, hs2, hm2, ex2, hl2, hc2⟩ := h2
  refine ⟨hr2.trans hr1, hs2.trans hs1, hm2.trans hm1, ex1 ++ ex2, ?_, ?_⟩
  · rw [hl2, hl1, List.append_assoc]
  · intro L hL
    rcases List.mem_append.mp hL with h | h
    · exact hc1 L h
    · exact hc2 L h

theorem ruleStepInner_dry_extends (beh : RunBehavior) (mb : Nat) (now : String)
    (st : RunState) (p : Nat × Rule) (st' : RunState) (out : Except String RuleResult)
    (h : ruleStepInner beh true mb now st p = (st', out)) : ExtendsB beh st st' := by
  unfold ruleStepInner at h
  cases hfind : findLabel st.labels p.2.label_name with
  | some l =>
    rw [hfind] at h
    simp only [ruleStepAfterLabel_dry, Prod.mk.injEq] at h
    rw [← h.1]
    exact extendsB_refl beh st
  | none =>
    rw [hfind] at h
    by_cases hco : beh.createOk p.2.label_name = true
    · simp only [hco, if_true, ruleStepAfterLabel_dry, Prod.mk.injEq] at h
      rw [← h.1]
      exact ⟨rfl, rfl, rfl, [{ id := "Label_" ++ toString st.nextId, name := p.2.label_name }],
        rfl, by intro L hL; rw [List.mem_singleton.mp hL]; exact hco⟩
    · have hco2 : beh.createOk p.2.label_name = false := by simpa using hco
      simp only [hco2, Bool.false_eq_true, if_false, Prod.mk.injEq] at h
      rw [← h.1]
      exact extendsB_refl beh st

theorem runRulesLoop_dry_extends (beh : RunBehavior) (mb : Nat) (now : String) :
    ∀ (pairs : List (Nat × Rule)) (st : RunState) (res : List (String × RuleResult))
      (errs : List (String × String)),
      ExtendsB beh st (runRulesLoop beh true mb now pairs st res errs).1 := by
  intro pairs
  induction pairs with
  | nil => intro st res errs; exact extendsB_refl beh st
  | cons p rest ih =>
    intro st res errs
    rcases hstep : ruleStepInner beh true mb now st p with ⟨st1, out⟩
    have hx1 := ruleStepInner_dry_extends beh mb now st p st1 out hstep
    cases out with
    | ok v =>
      have hred : runRulesLoop beh true mb now (p :: rest) st res errs
          = runRulesLoop beh true mb now rest st1 (res ++ [(p.2.label_name, v)]) errs := by
        simp only [runRulesLoop, hstep]
      rw [hred]
      exact extendsB_trans beh _ _ _ hx1 (ih st1 _ errs)
    | error e =>
      have hred : runRulesLoop beh true mb now (p :: rest) st res errs
          = runRulesLoop beh true mb now rest st1 res (errs ++ [(p.2.label_name, e)]) := by
        simp only [runRulesLoop, hstep]
      rw [hred]
      exact extendsB_trans beh _ _ _ hx1 (ih st1 res _)

theorem ruleStepInner_dry_stable (beh : RunBehavior) (mb : Nat) (now : String)
    (st : RunState) (p : Nat × Rule) (st' stB : RunState) (out : Except String RuleResult)
    (h : ruleStepInner beh true mb now st p = (st', out))
    (hext : ExtendsB beh st' stB) :
    ruleStepInner beh true mb now stB p = (stB, out) := by
  obtain ⟨hrules, hstore, hlog, ex, hlabels, hcr⟩ := hext
  unfold ruleStepInner at h ⊢
  cases hfind : findLabel st.labels p.2.label_name with
  | some l =>
    rw [hfind] at h
    simp only [ruleStepAfterLabel_dry, Prod.mk.injEq] at h
    have hfindB : findLabel stB.labels p.2.label_name = some l := by
      unfold findLabel at hfind ⊢
      rw [hlabels, ← h.1, List.find?_append, hfind]
      rfl
    rw [hfindB]
    simp only [ruleStepAfterLabel_dry, Prod.mk.injEq]
    exact ⟨trivial, h.2⟩
  | none =>
    rw [hfind] at h
    by_cases hco : beh.createOk p.2.label_name = true
    · simp only [hco, if_true, ruleStepAfterLabel_dry, Prod.mk.injEq] at h
      have hfindB : findLabel stB.labels p.2.label_name
          = some { id := "Label_" ++ toString st.nextId, name := p.2.label_name } := by
        unfold findLabel at hfind ⊢
        rw [hlabels, ← h.1]
        simp [List.find?_append, hfind]
      rw [hfindB]
      simp only [ruleStepAfterLabel_dry, Prod.mk.injEq]
      exact ⟨trivial, h.2⟩
    · have hco2 : beh.createOk p.2.label_name = false := by simpa using hco
      simp only [hco2, Bool.false_eq_true, if_false, Prod.mk.injEq] at h
      have hfindB : findLabel stB.labels p.2.label_name = none := by
        unfold findLabel at hfind ⊢
        rw [hlabels, ← h.1, List.find?_append, hfind]
        simp only [Option.none_or]
        rw [List.find?_eq_none]
        intro L hL hbeq
        have hname : L.name = p.2.label_name := by simpa using hbeq
        exact hco (hname ▸ hcr L hL)
      rw [hfindB]
      simp only [hco2, Bool.false_eq_true, if_false, Prod.mk.injEq]
      exact ⟨trivial, h.2⟩

theorem runRulesLoop_dry_idem (beh : RunBehavior) (mb : Nat) (now : String) :
    ∀ (pairs : List (Nat × Rule)) (st : RunState) (res : List (String × RuleResult))
      (errs : List (String × String)) (stB : RunState) (R : List (String × RuleResult))
      (E : List (String × String)),
      runRulesLoop beh true mb now pairs st res errs = (stB, R, E) →
      runRulesLoop beh true mb now pairs stB res errs = (stB, R, E) := by
  intro pairs
  induction pairs with
  | nil =>
    intro st res errs stB R E h
    simp only [runRulesLoop, Prod.mk.injEq] at h ⊢
    obtain ⟨h1, h2, h3⟩ := h
    exact ⟨trivial, h2, h3⟩
  | cons p rest ih =>
    intro st res errs stB R E h
    rcases hstep : ruleStepInner beh true mb now st p with ⟨st1, out⟩
    cases out with
    | ok v =>
      have hred : runRulesLoop beh true mb now (p :: rest) st res errs
          = runRulesLoop beh true mb now rest st1 (res ++ [(p.2.label_name, v)]) errs := by
        simp only [runRulesLoop, hstep]
      rw [hred] at h
      have hstB : (runRulesLoop beh true mb now rest st1 (res ++ [(p.2.label_name, v)]) errs).1
          = stB := by rw [h]
      have hext : ExtendsB beh st1 stB := by
        have hx := runRulesLoop_dry_extends beh mb now rest st1 (res ++ [(p.2.label_name, v)]) errs
        rwa [hstB] at hx
      have hstable := ruleStepInner_dry_stable beh mb now st p st1 stB (.ok v) hstep hext
      have hred2 : runRulesLoop beh true mb now (p :: rest) stB res errs
          = runRulesLoop beh true mb now rest stB (res ++ [(p.2.label_name, v)]) errs := by
        simp only [runRulesLoop, hstable]
      rw [hred2]
      exact ih st1 _ _ stB R E h
    | error e =>
      have hred : runRulesLoop beh true mb now (p :: rest) st res errs
          = runRulesLoop beh true mb now rest st1 res (errs ++ [(p.2.label_name, e)]) := by
        simp only [runRulesLoop, hstep]
      rw [hred] at h
      have hstB : (runRulesLoop beh true mb now rest st1 res (errs ++ [(p.2.label_name, e)])).1
          = stB := by rw [h]
      have hext : ExtendsB beh st1 stB := by
        have hx := runRulesLoop_dry_extends beh mb now rest st1 res (errs ++ [(p.2.label_name, e)])
        rwa [hstB] at hx
      have hstable := ruleStepInner_dry_stable beh mb now st p st1 stB (.error e) hstep hext
      have hred2 : runRulesLoop beh true mb now (p :: rest) stB res errs
          = runRulesLoop beh true mb now rest stB res (errs ++ [(p.2.label_name, e)]) := by
        simp only [runRulesLoop, hstable]
      rw [hred2]
      exact ih st1 _ _ stB R E h

/-! ## C8: dry run behavior -/

/-- Behavior for the C8 counterexample: empty mailbox search, all calls succeed. -/
def behC8 : RunBehavior :=
  { search := fun _ => [], createOk := fun _ => true,
    modifyOk := fun _ _ => true, searchOk := fun _ => true }

/-- State with one enabled rule whose label does not exist yet. -/
def stC8 : RunState :=
  { labels := [], nextId := 0,
    rules := [{ label_name := "Work", query := some "from:x" }],
    store := [{ label_name := "Work", query := some "from:x" }],
    modifyLog := [] }

/-- C8 counterexample: a dry run of run_auto_labeling_rules is not free of
mailbox mutation — label resolution runs before the dry_run check, so the
missing label "Work" is created during the dry run and the mailbox label list
changes. -/
theorem run_dry_creates_label_cex :
    (toolRunAutoLabelingRules behC8 true 10 "T" stC8).1.labels
      = [{ id := "Label_0", name := "Work" }] ∧
    stC8.labels = [] ∧
    (toolRunAutoLabelingRules behC8 true 10 "T" stC8).1.labels ≠ stC8.labels := by
  refine ⟨rfl, rfl, by decide⟩

/-- C8 (amended): with dry_run set, toolBulkDeleteEmails returns the estimate
and computed batch count without running the pagination loop, and a dry run
of run_auto_labeling_rules issues no label-modify calls, leaves the in-memory
rules, every last_run timestamp, and the persisted rule store unchanged —
though it may still create missing labels — so running it twice against an
unchanged mailbox returns identical per-rule outputs (the second run also
reproduces the first run's final state). -/
theorem dry_run_frame_and_idempotence
    (q : Option String) (bsz : Option Nat) (mb : BulkMailbox)
    (beh : RunBehavior) (mxb : Nat) (now : String) (st0 : RunState)
    (hq : strTruthy q = true) (he : mb.estimate ≠ 0) :
    toolBulkDeleteEmails q bsz true mb
      = .ok (.dryRun mb.estimate (max 10 (min 500 (jsNumOr bsz 100)))
          (ceilDiv mb.estimate (max 10 (min 500 (jsNumOr bsz 100))))) ∧
    (toolRunAutoLabelingRules beh true mxb now st0).1.rules = st0.rules ∧
    (toolRunAutoLabelingRules beh true mxb now st0).1.store = st0.store ∧
    (toolRunAutoLabelingRules beh true mxb now st0).1.modifyLog = st0.modifyLog ∧
    toolRunAutoLabelingRules beh true mxb now
        (toolRunAutoLabelingRules beh true mxb now st0).1
      = toolRunAutoLabelingRules beh true mxb now st0 := by
  have hdel : toolBulkDeleteEmails q bsz true mb
      = .ok (.dryRun mb.estimate (max 10 (min 500 (jsNumOr bsz 100)))
          (ceilDiv mb.estimate (max 10 (min 500 (jsNumOr bsz 100))))) := by
    simp [toolBulkDeleteEmails, hq, he]
  by_cases hz : (enabledPairs st0.rules).length = 0
  · have htool : toolRunAutoLabelingRules beh true mxb now st0
        = (st0, .noEnabledRules st0.rules.length) := by
      simp only [toolRunAutoLabelingRules]
      rw [if_pos hz]
    refine ⟨hdel, by rw [htool], by rw [htool], by rw [htool], ?_⟩
    rw [htool]
    exact htool
  · have hpair : runRulesLoop beh true mxb now (enabledPairs st0.rules) st0 [] []
        = ((runRulesLoop beh true mxb now (enabledPairs st0.rules) st0 [] []).1,
           (runRulesLoop beh true mxb now (enabledPairs st0.rules) st0 [] []).2.1,
           (runRulesLoop beh true mxb now (enabledPairs st0.rules) st0 [] []).2.2) := rfl
    have hidem := runRulesLoop_dry_idem beh mxb now (enabledPairs st0.rules) st0 [] [] _ _ _ hpair
    obtain ⟨hrules, hstore, hlog, -⟩ :=
      runRulesLoop_dry_extends beh mxb now (enabledPairs st0.rules) st0 [] []
    have htool : toolRunAutoLabelingRules beh true mxb now st0
        = ((runRulesLoop beh true mxb now (enabledPairs st0.rules) st0 [] []).1,
           .ran (runRulesLoop beh true mxb now (enabledPairs st0.rules) st0 [] []).2.1
                (runRulesLoop beh true mxb now (enabledPairs st0.rules) st0 [] []).2.2) := by
      simp only [toolRunAutoLabelingRules]
      rw [if_neg hz]
    refine ⟨hdel, by rw [htool]; exact hrules, by rw [htool]; exact hstore,
      by rw [htool]; exact hlog, ?_⟩
    rw [htool]
    simp only [toolRunAutoLabelingRules]
    rw [hrules, if_neg hz, hidem]

/-- C8 amended-theorem witness at concrete inputs. -/
theorem dry_run_frame_and_idempotence_witness :
    toolBulkDeleteEmails (some "q") none true { estimate := 25, pages := [] }
      = .ok (.dryRun 25 100 1) ∧
    (toolRunAutoLabelingRules behC8 true 10 "T" stC8).1.rules = stC8.rules ∧
    (toolRunAutoLabelingRules behC8 true 10 "T" stC8).1.store = stC8.store ∧
    (toolRunAutoLabelingRules behC8 true 10 "T" stC8).1.modifyLog = stC8.modifyLog ∧
    toolRunAutoLabelingRules behC8 true 10 "T"
        (toolRunAutoLabelingRules behC8 true 10 "T" stC8).1
      = toolRunAutoLabelingRules behC8 true 10 "T" stC8 :=
  dry_run_frame_and_idempotence (some "q") none { estimate := 25, pages := [] }
    behC8 10 "T" stC8 rfl (by decide)
